import Mathlib

/-!
Verification development for the obsidian-sqlite-sync persistent store adapter.

The JavaScript sources are embedded shallowly:

* `src/util.js` — `escapeSQLString`, `cleanTextForSearch`;
* `src/db.sql.js` (current revision, the one exporting `CURRENT_VERSION = 20`)
  — the SQL statement builders and the migration registry;
* the `SQLiteAdapter` revision of `db.js` (initialization / migration driver);
* the `SQLiteExecutor.execute` close handler (process-exit result handling).

Strings are Lean `String`s; JavaScript machine integers (`Date.now()`,
`file.stat.ctime`, …) are `Int`.  `String.toLowerCase` of JavaScript is
modelled character-wise by `Char.toLower`, which agrees with it on the ASCII
range; the development only ever evaluates it on ASCII data.
-/

namespace SqliteSync

/-- The single-quote character `0x27` used as the SQL string delimiter. -/
def sqlQuote : Char := Char.ofNat 39

/-- One-character string holding the SQL string delimiter. -/
def sq : String := String.mk [sqlQuote]

/-- Character-wise model of JavaScript `String.prototype.toLowerCase`
(exact on the ASCII range, which is the only range the claims evaluate). -/
def jsToLower (s : String) : String := String.mk (s.data.map Char.toLower)

/-- Character-level body of `escapeSQLString` from `src/util.js`:
`str.replace(/'/g, "''")` doubles every single-quote character. -/
def escapeChars (l : List Char) : List Char :=
  l.flatMap (fun c => if c == sqlQuote then [sqlQuote, sqlQuote] else [c])

/-- `escapeSQLString` from `src/util.js`. -/
def escapeSQLString (s : String) : String := String.mk (escapeChars s.data)

/-- Digit character for a value below ten. -/
def digitChar (d : Nat) : Char := Char.ofNat (48 + d)

/-- Decimal digit conversion, structurally recursive on a fuel bound
(`fuel > n` suffices since the value shrinks by a factor ten each step). -/
def natToCharsAux : Nat → Nat → List Char
  | 0, _ => []
  | fuel + 1, n =>
    if n < 10 then [digitChar n]
    else natToCharsAux fuel (n / 10) ++ [digitChar (n % 10)]

/-- Decimal digit list of a natural number, most significant first. -/
def natToChars (n : Nat) : List Char := natToCharsAux (n + 1) n

/-- Model of the JavaScript number-to-string conversion performed by template
interpolation of an integral number (`${fileInfo.created}`, `${Date.now()}`). -/
def jsNumToString (n : Int) : String :=
  if n < 0 then String.mk (Char.ofNat 45 :: natToChars n.natAbs)
  else String.mk (natToChars n.natAbs)

/-- The character class `[\p\x7bL\x7d\p\x7bN\x7d\s\-–]` of the regex in
`cleanTextForSearch` (`src/util.js`): letters, numbers, whitespace, the
hyphen-minus and the en dash are kept, every other character is removed.
The Unicode letter/number categories are modelled by their ASCII fragments
(`Char.isAlpha`, `Char.isDigit`), which is exact on the ASCII range; the
decisive facts below only concern ASCII punctuation the class excludes. -/
def isSearchKeptChar (c : Char) : Bool :=
  c.isAlpha || c.isDigit || c.isWhitespace || c == Char.ofNat 45 || c == Char.ofNat 8211

/-- One-pass whitespace collapsing; the flag records whether the scan stands
inside a whitespace run (whose first character already emitted one space). -/
def collapseWsAux : Bool → List Char → List Char
  | _, [] => []
  | inRun, c :: rest =>
    if c.isWhitespace then
      if inRun then collapseWsAux true rest
      else Char.ofNat 32 :: collapseWsAux true rest
    else c :: collapseWsAux false rest

/-- `replace(/\s+/g, ' ')`: every maximal run of whitespace becomes one space. -/
def collapseWhitespace (l : List Char) : List Char := collapseWsAux false l

/-- `String.prototype.trim`: drop leading and trailing whitespace. -/
def trimChars (l : List Char) : List Char :=
  ((l.dropWhile Char.isWhitespace).reverse.dropWhile Char.isWhitespace).reverse

/-- JavaScript `text.split(' ')` (single-character separator, empty pieces
preserved, the empty string splitting to `[""]`). -/
def splitOnSpace : List Char → List (List Char)
  | [] => [[]]
  | c :: rest =>
    if c == Char.ofNat 32 then [] :: splitOnSpace rest
    else
      match splitOnSpace rest with
      | [] => [[c]]
      | w :: ws => (c :: w) :: ws

/-- `removeStopwords` of the external `stopword` package (a collaborator of
this repository): keeps the words that are not in the stop list. -/
def removeStopwords (words : List String) (stop : List String) : List String :=
  words.filter (fun w => !(stop.contains w))

/-- JavaScript `arr.join(' ')` at the character level. -/
def joinSpaceChars : List String → List Char
  | [] => []
  | w :: ws =>
    match ws with
    | [] => w.data
    | _ :: _ => w.data ++ Char.ofNat 32 :: joinSpaceChars ws

/-- `cleanTextForSearch` from `src/util.js`.  The source fixes the stop list
to the package constant `swe` (external library data); the embedding takes
the stop list as a parameter and every theorem below holds for all of them. -/
def cleanTextForSearch (stop : List String) (text : String) : String :=
  let lowered := text.data.map Char.toLower
  let filtered := lowered.filter isSearchKeptChar
  let collapsed := collapseWhitespace filtered
  let trimmed := trimChars collapsed
  let words := (splitOnSpace trimmed).map (fun w => String.mk w)
  String.mk (joinSpaceChars (removeStopwords words stop))

/-- The normalized record handed to the adapter
(`{path, title, content, tags, frontmatter, created, last_modified}`).
`frontmatter` is the entry list of the frontmatter object, the value
component being the `JSON.stringify` serialization produced by the runtime
(taken as given text here). -/
structure FileInfo where
  path : String
  title : String
  content : String
  tags : List String
  frontmatter : List (String × String)
  created : Int
  last_modified : Int
deriving DecidableEq, Repr

/-- The tag normalization step of `getUpdateTagsSql`: a leading `#` marker
(`U+0023`) is stripped before storage (`tag.startsWith('#') ?
tag.substring(1) : tag`). -/
def stripHash (tag : String) : String :=
  match tag.data with
  | [] => tag
  | c :: rest => if c = Char.ofNat 35 then String.mk rest else tag

/-- JavaScript `arr.join(sep)`. -/
def joinWith (sep : String) : List String → String
  | [] => ""
  | [a] => a
  | a :: b :: rest => a ++ sep ++ joinWith sep (b :: rest)

/-- The quoted path list `allPaths` interpolated into both relation-replace
builders of `src/db.sql.js`. -/
def allPathsSql (files : List FileInfo) : String :=
  joinWith "," (files.map (fun f => sq ++ escapeSQLString f.path ++ sq))

/-- One `(note_path, tag_name, tag_name_lower)` tuple of `getUpdateTagsSql`:
the source strips a leading `#`, escapes the path and the tag and lower-cases
the escaped tag for the third column. -/
def tagTuple (path tag : String) : String :=
  "(" ++ sq ++ escapeSQLString path ++ sq ++ ", " ++ sq ++ escapeSQLString (stripHash tag)
    ++ sq ++ ", " ++ sq ++ jsToLower (escapeSQLString (stripHash tag)) ++ sq ++ ")"

/-- The tag tuple list of a batch (`fileInfoArray.map(...).flat()`). -/
def tagTuples (files : List FileInfo) : List String :=
  files.flatMap (fun f => f.tags.map (fun tag => tagTuple f.path tag))

/-- The `insertSQL` part of `getUpdateTagsSql`: present only when the batch
contributes at least one tag tuple. -/
def tagsInsertSql (tuples : List String) : String :=
  if tuples.length > 0 then
    "\n          INSERT OR IGNORE INTO note_tag \n          (note_path, tag_name, tag_name_lower) \n          VALUES \n          "
      ++ joinWith ",\n" tuples ++ " ;\n        "
  else ""

/-- `getUpdateTagsSql` from `src/db.sql.js` (array form; the source coerces a
single record to a one-element array first). -/
def getUpdateTagsSql (files : List FileInfo) : String :=
  "\n    DELETE FROM note_tag \n    WHERE note_path IN (" ++ allPathsSql files
    ++ "); \n\n    " ++ tagsInsertSql (tagTuples files) ++ "\n  "

/-- One value tuple of `getUpdateNoteSql`: path, title and lower-cased title
are escaped, `content_lower` is `cleanTextForSearch(fileInfo.content)`
interpolated without escaping, the timestamps are interpolated as numbers. -/
def noteTuple (stop : List String) (f : FileInfo) : String :=
  "(" ++ sq ++ escapeSQLString f.path ++ sq ++ ", " ++ sq ++ escapeSQLString f.title
    ++ sq ++ ", " ++ sq ++ escapeSQLString (jsToLower f.title)
    ++ sq ++ ", " ++ sq ++ cleanTextForSearch stop f.content ++ sq ++ ", "
    ++ jsNumToString f.created ++ ", " ++ jsNumToString f.last_modified ++ ")"

/-- `getUpdateNoteSql` from `src/db.sql.js` (array form). -/
def getUpdateNoteSql (stop : List String) (files : List FileInfo) : String :=
  "\n    INSERT OR REPLACE INTO note (path, title, title_lower, content_lower, created, last_modified)\n    VALUES \n    "
    ++ joinWith ",\n" (files.map (noteTuple stop)) ++ ";\n  "

/-- One value tuple of `getUpdateFrontmatterSql`: path, key, serialized value
and its lower-cased form, all escaped. -/
def fmTuple (path : String) (entry : String × String) : String :=
  "(" ++ sq ++ escapeSQLString path ++ sq ++ ", " ++ sq ++ escapeSQLString entry.1
    ++ sq ++ ", " ++ sq ++ escapeSQLString entry.2 ++ sq ++ ", "
    ++ sq ++ escapeSQLString (jsToLower entry.2) ++ sq ++ ")"

/-- The frontmatter tuple list of a batch. -/
def fmTuples (files : List FileInfo) : List String :=
  files.flatMap (fun f => f.frontmatter.map (fun entry => fmTuple f.path entry))

/-- The `insertSQL` part of `getUpdateFrontmatterSql`. -/
def fmInsertSql (tuples : List String) : String :=
  if tuples.length > 0 then
    "\n        INSERT OR IGNORE INTO note_frontmatter \n        (note_path, frontmatter_name, frontmatter_value, frontmatter_value_lower)\n        VALUES\n        "
      ++ joinWith ",\n" tuples ++ ";\n    "
  else ""

/-- `getUpdateFrontmatterSql` from `src/db.sql.js` (array form). -/
def getUpdateFrontmatterSql (files : List FileInfo) : String :=
  "\n    DELETE FROM note_frontmatter\n    WHERE note_path IN (" ++ allPathsSql files
    ++ "); \n\n    " ++ fmInsertSql (fmTuples files) ++ "\n  "

/-- `getDeleteNoteSql` from `src/db.sql.js`. -/
def getDeleteNoteSql (path : String) : String :=
  "DELETE FROM note WHERE path = " ++ sq ++ escapeSQLString path ++ sq ++ ";"

/-- `getUpdateLastOpenedSql` from `src/db.sql.js`; `Date.now()` is passed in
as the `now` parameter. -/
def getUpdateLastOpenedSql (now : Int) (path : String) : String :=
  "\n  UPDATE note\n  SET last_opened = " ++ jsNumToString now
    ++ "\n  WHERE path = " ++ sq ++ escapeSQLString path ++ sq ++ ";\n"

/-! ## Relational state and the semantics of the generated statements

The store schema (`createDatabase` in `src/db.sql.js`): table `note` keyed on
`path`, relation tables `note_tag` (primary key `(note_path, tag_name_lower)`)
and `note_frontmatter` (primary key `(note_path, frontmatter_name_lower)`),
both with `FOREIGN KEY (note_path) REFERENCES note(path) ON DELETE CASCADE`.
Row fields hold the *semantic* text values (the value an SQL literal denotes,
i.e. the text before quote-doubling). -/

/-- A `note` row (the `timestamp` column added by migration 20 and the
`last_opened` column play no part in any claim and are omitted/optional). -/
structure NoteRow where
  path : String
  title : String
  title_lower : String
  content_lower : String
  created : Int
  last_modified : Int
  last_opened : Option Int
deriving DecidableEq, Repr

/-- A `note_tag` row. -/
structure NoteTagRow where
  note_path : String
  tag_name : String
  tag_name_lower : String
deriving DecidableEq, Repr

/-- A `note_frontmatter` row (the builder never supplies
`frontmatter_name_lower`, so it is not modelled). -/
structure NoteFmRow where
  note_path : String
  fm_name : String
  fm_value : String
  fm_value_lower : String
deriving DecidableEq, Repr

/-- The relational store contents. -/
structure DB where
  note : List NoteRow
  note_tag : List NoteTagRow
  note_frontmatter : List NoteFmRow
deriving DecidableEq, Repr

/-- Semantic value of one tag tuple of `getUpdateTagsSql`: leading `#`
stripped, third column the lower-cased form. -/
def tagRowOf (path tag : String) : NoteTagRow :=
  let t := stripHash tag
  ⟨path, t, jsToLower t⟩

/-- Semantic values of all tag tuples of a batch, in emission order. -/
def tagRowsOf (files : List FileInfo) : List NoteTagRow :=
  files.flatMap (fun f => f.tags.map (tagRowOf f.path))

/-- `DELETE FROM note_tag WHERE note_path IN (paths)`. -/
def sqlDeleteTagsWhereIn (db : DB) (paths : List String) : DB :=
  { db with note_tag := db.note_tag.filter (fun r => !decide (r.note_path ∈ paths)) }

/-- Primary-key clash on `note_tag`: same `(note_path, tag_name_lower)`. -/
def tagPKClash (r s : NoteTagRow) : Bool :=
  r.note_path == s.note_path && r.tag_name_lower == s.tag_name_lower

/-- `INSERT OR IGNORE INTO note_tag VALUES rows`: each row in order is
appended unless a row with the same primary key is already present. -/
def sqlInsertOrIgnoreTags (db : DB) (rows : List NoteTagRow) : DB :=
  { db with note_tag :=
      rows.foldl (fun cur r => if cur.any (tagPKClash r) then cur else cur ++ [r]) db.note_tag }

/-- Effect of executing the script produced by `getUpdateTagsSql`:
the batch-wide delete followed by the single insert-or-ignore. -/
def applyUpdateTags (db : DB) (files : List FileInfo) : DB :=
  sqlInsertOrIgnoreTags (sqlDeleteTagsWhereIn db (files.map (fun f => f.path)))
    (tagRowsOf files)

/-- Effect of executing the script produced by `getDeleteNoteSql` on the
connection the adapter spawns: the `note` rows with the given path are
deleted and no other statement runs.  The schema of `createDatabase`
declares `ON DELETE CASCADE` on both relation tables, but the adapter never
issues `PRAGMA foreign_keys = ON` on any spawned `sqlite3` connection (no
such pragma appears in the sources) and SQLite leaves foreign-key
enforcement off by default per connection, so the cascade never fires and
the relation tables are untouched. -/
def applyDeleteNote (db : DB) (p : String) : DB :=
  { db with note := db.note.filter (fun r => !(r.path == p)) }

/-- The delete behaviour the spec predicts: the `ON DELETE CASCADE` rule
removes every relation row referencing a deleted `note` row.  This
definition follows the spec's words, for comparison with `applyDeleteNote`,
which follows the program. -/
def applyDeleteNoteSpecCascade (db : DB) (p : String) : DB :=
  { note := db.note.filter (fun r => !(r.path == p)),
    note_tag := db.note_tag.filter (fun r => !(r.note_path == p)),
    note_frontmatter := db.note_frontmatter.filter (fun r => !(r.note_path == p)) }

/-- First-occurrence deduplication of a tag list keyed on the lower-cased
form (`seen` carries the lower-cased keys already kept). -/
def dedupByLowerAux (seen : List String) : List String → List String
  | [] => []
  | t :: rest =>
    if jsToLower t ∈ seen then dedupByLowerAux seen rest
    else t :: dedupByLowerAux (jsToLower t :: seen) rest

/-- The case-folded-deduplicated form of a tag list: first occurrence of each
lower-cased key survives, in order. -/
def dedupByLower (l : List String) : List String := dedupByLowerAux [] l

/-- The `note_tag` rows a record is expected to own after an update: its tag
list `#`-stripped, case-folded-deduplicated, keyed on `tag_name_lower`. -/
def expectedTagRows (f : FileInfo) : List NoteTagRow :=
  (dedupByLower (f.tags.map stripHash)).map (fun t => ⟨f.path, t, jsToLower t⟩)

/-- Semantic value of one frontmatter tuple of `getUpdateFrontmatterSql`. -/
def fmRowOf (path : String) (entry : String × String) : NoteFmRow :=
  ⟨path, entry.1, entry.2, jsToLower entry.2⟩

/-- Semantic values of all frontmatter tuples of a batch. -/
def fmRowsOf (files : List FileInfo) : List NoteFmRow :=
  files.flatMap (fun f => f.frontmatter.map (fmRowOf f.path))

/-- The tag tuple text determined by a semantic `note_tag` row (every field
escaped); `tagTuple` factors through it, see `tagTuple_eq_render`. -/
def renderTagRow (r : NoteTagRow) : String :=
  "(" ++ sq ++ escapeSQLString r.note_path ++ sq ++ ", " ++ sq ++ escapeSQLString r.tag_name
    ++ sq ++ ", " ++ sq ++ escapeSQLString r.tag_name_lower ++ sq ++ ")"

/-- The frontmatter tuple text determined by a semantic `note_frontmatter`
row. -/
def renderFmRow (r : NoteFmRow) : String :=
  "(" ++ sq ++ escapeSQLString r.note_path ++ sq ++ ", " ++ sq ++ escapeSQLString r.fm_name
    ++ sq ++ ", " ++ sq ++ escapeSQLString r.fm_value ++ sq ++ ", "
    ++ sq ++ escapeSQLString r.fm_value_lower ++ sq ++ ")"

/-- The text values the string literals of `getUpdateTagsSql` denote, in
script order: the batch paths of the delete, then per tag tuple the path,
the stripped tag and its lower-cased form. -/
def tagLiteralsOf (files : List FileInfo) : List String :=
  files.map (fun f => f.path)
    ++ (tagRowsOf files).flatMap (fun r => [r.note_path, r.tag_name, r.tag_name_lower])

/-- The text values the string literals of `getUpdateFrontmatterSql` denote,
in script order. -/
def fmLiteralsOf (files : List FileInfo) : List String :=
  files.map (fun f => f.path)
    ++ (fmRowsOf files).flatMap (fun r => [r.note_path, r.fm_name, r.fm_value, r.fm_value_lower])

/-- The text values the string literals of `getUpdateNoteSql` denote, in
script order: per record the path, the title, the lower-cased title and the
cleaned content. -/
def noteLiteralsOf (stop : List String) (files : List FileInfo) : List String :=
  files.flatMap (fun f =>
    [f.path, f.title, jsToLower f.title, cleanTextForSearch stop f.content])

/-- The statement-terminating semicolon character. -/
def semicolonChar : Char := Char.ofNat 59

/-- The VALUES tuple the spec sentence for the upsert builder predicts
(content already normalized by the collaborator, the builder applying no
further normalization of its own): identical to `noteTuple` except that the
`content_lower` position carries the record's `content` field verbatim.
This definition follows the spec's words, for comparison with `noteTuple`,
which follows the source. -/
def noteTupleSpecVerbatim (f : FileInfo) : String :=
  "(" ++ sq ++ escapeSQLString f.path ++ sq ++ ", " ++ sq ++ escapeSQLString f.title
    ++ sq ++ ", " ++ sq ++ escapeSQLString (jsToLower f.title)
    ++ sq ++ ", " ++ sq ++ f.content ++ sq ++ ", " ++ jsNumToString f.created
    ++ ", " ++ jsNumToString f.last_modified ++ ")"

/-- The upsert script the spec sentence predicts, built from
`noteTupleSpecVerbatim`; follows the spec's words, for comparison with
`getUpdateNoteSql`. -/
def getUpdateNoteSqlSpecVerbatim (files : List FileInfo) : String :=
  "\n    INSERT OR REPLACE INTO note (path, title, title_lower, content_lower, created, last_modified)\n    VALUES \n    "
    ++ joinWith ",\n" (files.map noteTupleSpecVerbatim) ++ ";\n  "

/-! ## VersionManager (the `SQLiteAdapter` revision of `db.js`)

Modelled at the level of the schema: the output of the
`checkVersionTableExists` query maps to `Store.hasVersionTable`, the
`getVersion` output combined with `parseInt(x) || 0` maps to `readVersion`,
and running the `createDatabase` / `updateVersion` / migration scripts is
recorded as store transitions.  Two aspects of the scripts matter and are
carried by the store: the `createDatabase` script uses plain `CREATE TABLE`
(no `IF NOT EXISTS`), so it fails against a store whose tables already
exist, and the `updateVersion` script inserts into `version (id, version)`
after a `CREATE TABLE IF NOT EXISTS`, so it fails against a store whose
pre-existing `version` table has the old single-column shape without `id`.
A failed statement makes the spawned `sqlite3` process exit nonzero, which
the `close` handler of `execute` turns into a rejection, so a script
failure is an `Except.error` here. -/

/-- `CURRENT_VERSION` of `src/db.sql.js`. -/
def CURRENT_VERSION : Int := 20

/-- `MIN_MIGRATION_VERSION` of `src/db.sql.js`. -/
def MIN_MIGRATION_VERSION : Int := 18

/-- The migration registry `migrate` of `src/db.sql.js`: entries for
versions 10, 11, 12 and 20 only. -/
def migrate (v : Int) : Option String :=
  if v = 10 then some "ALTER TABLE some_table ADD COLUMN new_column TEXT;"
  else if v = 11 then some "CREATE TABLE new_table (id INTEGER PRIMARY KEY, name TEXT);"
  else if v = 12 then some "ALTER TABLE new_table ADD COLUMN timestamp INTEGER;"
  else if v = 20 then some "ALTER TABLE note ADD COLUMN timestamp INTEGER;"
  else none

/-- Schema view of the store, plus a trace of the scripts run:
whether a `version` table exists, whether it has the new
`(id, version)` shape of the `updateVersion` script or the old
single-column shape without `id`, whether the tables of the
`createDatabase` script already exist, the stored version, the migration
scripts run, the schema creations performed, and the files unlinked. -/
structure Store where
  hasVersionTable : Bool
  versionTableHasId : Bool
  hasNoteTables : Bool
  version : Option Int
  migrationsRun : List Int
  schemaCreates : Nat
  unlinks : Nat
deriving DecidableEq, Repr

/-- Effect of executing the `createDatabase` script: plain `CREATE TABLE
note (...)` (no `IF NOT EXISTS`), so it fails when the tables already
exist. -/
def runCreateDatabase (s : Store) : Except String Store :=
  if s.hasNoteTables then Except.error "table note already exists"
  else Except.ok { s with hasNoteTables := true, schemaCreates := s.schemaCreates + 1 }

/-- Effect of executing the `updateVersion` script: `CREATE TABLE IF NOT
EXISTS version (id ..., version ...)` followed by `INSERT OR REPLACE INTO
version (id, version) VALUES (1, CURRENT_VERSION)`.  When a `version` table
already exists with the old shape lacking the `id` column, the `IF NOT
EXISTS` is a no-op and the insert fails. -/
def runUpdateVersion (s : Store) : Except String Store :=
  if s.hasVersionTable && !s.versionTableHasId then
    Except.error "table version has no column named id"
  else
    Except.ok
      { s with
        hasVersionTable := true
        versionTableHasId := true
        version := some CURRENT_VERSION }

/-- Effect of executing the migration script of version `v`. -/
def runMigration (v : Int) (s : Store) : Store :=
  { s with migrationsRun := s.migrationsRun ++ [v] }

/-- The value of `await fs.access(this.dbPath)`: `fs.promises.access`
fulfils with `undefined` (and rejects on a missing file), so the awaited
value is never truthy. -/
def fsAccessResult : Option Unit := none

/-- `createNewDatabase` of the `SQLiteAdapter`: reads `fs.access`, unlinks
the store file when that value is truthy (it never is, so the unlink is
dead code), then executes `createDatabase` and `updateVersion`. -/
def createNewDatabase (s : Store) : Except String Store :=
  let s0 := match fsAccessResult with
    | some _ => { s with unlinks := s.unlinks + 1 }
    | none => s
  (runCreateDatabase s0).bind runUpdateVersion

/-- The versions the upgrade loop visits:
`fromVersion + 1, …, CURRENT_VERSION` in ascending order. -/
def upgradeVersions (fromVersion : Int) : List Int :=
  (List.range (CURRENT_VERSION - fromVersion).toNat).map (fun i => fromVersion + 1 + i)

/-- `upgradeDatabase` of the `SQLiteAdapter`: walks every version after
`fromVersion` up to `CURRENT_VERSION`, throwing
`Missing migration script for version v` when the registry has no entry,
executing the script otherwise, and finally executes `updateVersion`. -/
def upgradeDatabase (fromVersion : Int) (s : Store) : Except String Store := do
  let stepped ← (upgradeVersions fromVersion).foldlM
    (fun st v =>
      match migrate v with
      | none => Except.error ("Missing migration script for version " ++ jsNumToString v)
      | some _ => Except.ok (runMigration v st)) s
  runUpdateVersion stepped

/-- `parseInt(currentVersionResult) || 0`: a missing or unreadable version row
reads as 0. -/
def readVersion (s : Store) : Int := s.version.getD 0

/-- The four initialization statuses of the `SQLiteAdapter`. -/
inductive InitStatus
  | created
  | reset
  | upgraded
  | current
deriving DecidableEq, Repr

/-- `initializeDatabase` of the `SQLiteAdapter` revision of `db.js`. -/
def initializeDatabase (s : Store) : Except String (InitStatus × Store) :=
  if !s.hasVersionTable then
    (createNewDatabase s).map (fun st => (InitStatus.created, st))
  else
    let currentVersion := readVersion s
    if currentVersion < MIN_MIGRATION_VERSION then
      (createNewDatabase s).map (fun st => (InitStatus.reset, st))
    else if currentVersion < CURRENT_VERSION then
      (upgradeDatabase currentVersion s).map (fun st => (InitStatus.upgraded, st))
    else
      Except.ok (InitStatus.current, s)

/-! ## CommandExecutor result handling

The `close` handler of `SQLiteExecutor.execute` (the revision carrying the
`json` option).  `JSON.parse` is a runtime builtin and is taken as a
parameter; its `Except.error` carries the thrown `error.message`. -/

/-- Outcome of one `execute` call as decided by the `close` handler. -/
inductive ExecResult
  | resolvedText (out : String)
  | resolvedStructured (v : String)
  | rejectedProcess (msg : String)
  | rejectedParse (msg : String)
deriving DecidableEq, Repr

/-- Does `hay` start with `needle`? -/
def listStartsWith : List Char → List Char → Bool
  | [], _ => true
  | _ :: _, [] => false
  | n :: ns, h :: hs => n == h && listStartsWith ns hs

/-- Does `hay` contain `needle` as a contiguous run?  (Model of
JavaScript `String.prototype.includes`.) -/
def listHasRun (needle : List Char) : List Char → Bool
  | [] => listStartsWith needle []
  | h :: hs => listStartsWith needle (h :: hs) || listHasRun needle hs

/-- `errorOutput.includes('not a database')`. -/
def notADatabase (errorOutput : String) : Bool :=
  listHasRun "not a database".data errorOutput.data

/-- The `close` handler of `SQLiteExecutor.execute`: nonzero exit code or a
`not a database` diagnostic on the error stream rejects with the captured
error text; otherwise structured mode parses the output (rejecting with a
parse failure on malformed output) and text mode resolves the trimmed
output. -/
def executeOnClose (optionsJson : Bool) (jsonParse : String → Except String String)
    (code : Int) (output errorOutput : String) : ExecResult :=
  if code != 0 || notADatabase errorOutput then
    ExecResult.rejectedProcess ("SQLite error: " ++ errorOutput)
  else if optionsJson then
    match jsonParse output with
    | Except.ok v => ExecResult.resolvedStructured v
    | Except.error msg => ExecResult.rejectedParse ("Failed to parse JSON: " ++ msg)
  else
    ExecResult.resolvedText output.trim

/-! ## SQL string-literal scanner

A reader for the quote structure of a generated script: it walks the
characters, treats a single quote as opening a literal, a doubled quote
inside a literal as an escaped quote, and returns the list of literal values
(the text each literal denotes) — `none` on an unterminated literal.  It is
the tool for stating that a generated script is well-formed and that
caller-supplied text never terminates a literal early. -/

/-- Scanner mode: outside any literal, inside a literal (`cur` holds the
current value in reverse), or just after a quote seen inside a literal
(which either doubles into an escaped quote or closes the literal). -/
inductive ScanState
  | outside
  | inside (cur : List Char)
  | afterQuote (cur : List Char)
deriving DecidableEq, Repr

/-- One-character-at-a-time scan of the quote structure of a script:
returns the literal values (in order, with the text each denotes) and the
characters standing outside every literal, or `none` on an unterminated
literal. -/
def scanPartsAux : ScanState → List Char → Option (List String × List Char)
  | ScanState.outside, [] => some ([], [])
  | ScanState.inside _, [] => none
  | ScanState.afterQuote cur, [] => some ([String.mk cur.reverse], [])
  | ScanState.outside, c :: rest =>
    if c == sqlQuote then scanPartsAux (ScanState.inside []) rest
    else (scanPartsAux ScanState.outside rest).map (fun p => (p.1, c :: p.2))
  | ScanState.inside cur, c :: rest =>
    if c == sqlQuote then scanPartsAux (ScanState.afterQuote cur) rest
    else scanPartsAux (ScanState.inside (c :: cur)) rest
  | ScanState.afterQuote cur, c :: rest =>
    if c == sqlQuote then scanPartsAux (ScanState.inside (sqlQuote :: cur)) rest
    else (scanPartsAux ScanState.outside rest).map
      (fun p => (String.mk cur.reverse :: p.1, c :: p.2))

/-- Scan of a whole character list, starting outside any literal. -/
def scanParts (l : List Char) : Option (List String × List Char) :=
  scanPartsAux ScanState.outside l

/-- The string literals of a generated script, in order, with the text each
denotes; `none` when a literal is left unterminated. -/
def sqlLiterals (s : String) : Option (List String) :=
  (scanParts s.data).map (fun p => p.1)

/-- The characters of a generated script standing outside every string
literal (the fixed statement syntax), or `none` on an unterminated
literal. -/
def sqlOutsideChars (s : String) : Option (List Char) :=
  (scanParts s.data).map (fun p => p.2)

/-! ## WriteQueue

Modelled from the spec: the WriteQueue component (serialization of all
mutating operations through an insertion-order queue drained by a single
one-at-a-time worker) is not among the provided source files — only its
callers (`handleFileModify` and the other event handlers of `main.js`) are.
Following the spec: `enqueue` appends a deferred operation to an ordered
queue; a single worker, when idle, starts the oldest pending operation; a
started operation later settles (resolves or rejects), and only then may the
worker start the next one.  Operations are identified by distinct ids; the
observable history is the trace of begin/settle events. -/

/-- Observable queue events: an operation starting, or settling with
success (`true`) or failure (`false`). -/
inductive QEvent
  | begins (op : Nat)
  | settles (op : Nat) (ok : Bool)
deriving DecidableEq, Repr

/-- Queue state: enqueue history, pending queue, the operation the worker is
executing (if any), and the event trace. -/
structure QueueState where
  enqueued : List Nat
  pending : List Nat
  running : Option Nat
  trace : List QEvent
deriving DecidableEq, Repr

/-- The empty queue. -/
def QueueState.start : QueueState := ⟨[], [], none, []⟩

/-- One asynchronous step of the adapter: a collaborator enqueues a fresh
operation (possible at any time), the idle worker starts the oldest pending
operation, or the started operation settles. -/
inductive QueueStep : QueueState → QueueState → Prop
  | enqueue (s : QueueState) (op : Nat) (hfresh : op ∉ s.enqueued) :
      QueueStep s ⟨s.enqueued ++ [op], s.pending ++ [op], s.running, s.trace⟩
  | begin_next (s : QueueState) (op : Nat) (rest : List Nat)
      (hidle : s.running = none) (hqueue : s.pending = op :: rest) :
      QueueStep s ⟨s.enqueued, rest, some op, s.trace ++ [QEvent.begins op]⟩
  | settle (s : QueueState) (op : Nat) (ok : Bool) (hrun : s.running = some op) :
      QueueStep s ⟨s.enqueued, s.pending, none, s.trace ++ [QEvent.settles op ok]⟩

/-- States the queue can reach from empty through any interleaving of
enqueues and worker steps. -/
inductive QueueReachable : QueueState → Prop
  | start : QueueReachable QueueState.start
  | step {s t : QueueState} : QueueReachable s → QueueStep s t → QueueReachable t

/-- The zero-or-one-element list holding the operation the worker is
executing. -/
def runList : Option Nat → List Nat
  | none => []
  | some op => [op]

/-- The event trace determined by the settled operations (in order, with
their outcomes) and the currently running operation. -/
def TraceOf (done : List (Nat × Bool)) (running : Option Nat) : List QEvent :=
  done.flatMap (fun pr => [QEvent.begins pr.1, QEvent.settles pr.1 pr.2])
    ++ (runList running).map QEvent.begins

/-- Structural invariant of every reachable queue state: the trace is the
begin/settle interleaving of a list of settled operations followed by the
begin of the running one, and the enqueue history splits into settled,
running and pending operations in order, without duplicates. -/
def QueueInv (s : QueueState) : Prop :=
  ∃ done : List (Nat × Bool),
    s.trace = TraceOf done s.running
      ∧ s.enqueued = done.map Prod.fst ++ runList s.running ++ s.pending
      ∧ s.enqueued.Nodup

/-- `i` is enqueued strictly before `j` in the history `l`. -/
def EnqueuedBefore (l : List Nat) (i j : Nat) : Prop :=
  ∃ l1 l2 l3, l = l1 ++ i :: l2 ++ j :: l3

/-- In trace `tr`, operation `i` settles strictly before operation `j`
begins. -/
def SettledBeforeBegin (tr : List QEvent) (i j : Nat) : Prop :=
  ∃ pre post, tr = pre ++ QEvent.begins j :: post ∧ ∃ ok, QEvent.settles i ok ∈ pre

/-! ## Basic character and escaping lemmas -/

theorem char_toNat_ofNat (n : Nat) (h : n < 55296) : (Char.ofNat n).toNat = n := by
  unfold Char.ofNat Char.ofNatAux
  rw [dif_pos (by omega : n < 55296 ∨ 57343 < n ∧ n < 1114112)]
  simp [Char.toNat, UInt32.toNat, BitVec.toNat_ofNatLt]

theorem toLower_sqlQuote : Char.toLower sqlQuote = sqlQuote := by decide

theorem toLower_eq_sqlQuote {c : Char} (h : Char.toLower c = sqlQuote) : c = sqlQuote := by
  unfold Char.toLower at h
  simp only [] at h
  split at h
  next hcond =>
    exfalso
    have h2 := congrArg Char.toNat h
    rw [char_toNat_ofNat (c.toNat + 32) (by omega)] at h2
    have h39 : Char.toNat sqlQuote = 39 := by decide
    omega
  next => exact h

theorem data_mk (l : List Char) : (String.mk l).data = l := rfl

theorem mk_data (s : String) : String.mk s.data = s := rfl

theorem escapeChars_cons (c : Char) (l : List Char) :
    escapeChars (c :: l)
      = (if c == sqlQuote then [sqlQuote, sqlQuote] else [c]) ++ escapeChars l := by
  simp [escapeChars]

theorem escapeChars_append (l1 l2 : List Char) :
    escapeChars (l1 ++ l2) = escapeChars l1 ++ escapeChars l2 := by
  simp [escapeChars]

theorem escapeChars_eq_self {l : List Char} (h : sqlQuote ∉ l) : escapeChars l = l := by
  induction l with
  | nil => rfl
  | cons c t ih =>
    simp only [List.mem_cons, not_or] at h
    rw [escapeChars_cons, ih h.2, if_neg, List.singleton_append]
    simp only [beq_iff_eq]
    exact fun hc => h.1 hc.symm

theorem escapeChars_map_toLower (l : List Char) :
    escapeChars (l.map Char.toLower) = (escapeChars l).map Char.toLower := by
  induction l with
  | nil => rfl
  | cons c t ih =>
    simp only [List.map_cons, escapeChars_cons, List.map_append, ih]
    congr 1
    by_cases hc : c = sqlQuote
    · subst hc
      simp [toLower_sqlQuote]
    · have hlc : ¬ Char.toLower c = sqlQuote := fun hh => hc (toLower_eq_sqlQuote hh)
      simp [hc, hlc]

theorem escapeSQLString_jsToLower (s : String) :
    escapeSQLString (jsToLower s) = jsToLower (escapeSQLString s) := by
  unfold escapeSQLString jsToLower
  rw [data_mk, data_mk, escapeChars_map_toLower]

theorem escapeSQLString_eq_self {s : String} (h : sqlQuote ∉ s.data) :
    escapeSQLString s = s := by
  unfold escapeSQLString
  rw [escapeChars_eq_self h, mk_data]

/-! ## The cleaned search text contains only kept characters -/

theorem mem_collapseWsAux {c : Char} :
    ∀ {l : List Char} {b : Bool}, c ∈ collapseWsAux b l → c = Char.ofNat 32 ∨ c ∈ l := by
  intro l
  induction l with
  | nil =>
    intro b h
    exact absurd h (List.not_mem_nil c)
  | cons d rest ih =>
    intro b h
    rw [collapseWsAux] at h
    by_cases hws : d.isWhitespace
    · rw [if_pos hws] at h
      rcases hb : b with _ | _
      · rw [hb, if_neg (by simp)] at h
        rcases List.mem_cons.mp h with h32 | hrec
        · exact Or.inl h32
        · rcases ih hrec with h32 | hmem
          · exact Or.inl h32
          · exact Or.inr (List.mem_cons_of_mem d hmem)
      · rw [hb, if_pos rfl] at h
        rcases ih h with h32 | hmem
        · exact Or.inl h32
        · exact Or.inr (List.mem_cons_of_mem d hmem)
    · rw [if_neg hws] at h
      rcases List.mem_cons.mp h with hd | hrec
      · exact Or.inr (hd ▸ List.mem_cons_self d rest)
      · rcases ih hrec with h32 | hmem
        · exact Or.inl h32
        · exact Or.inr (List.mem_cons_of_mem d hmem)

theorem mem_collapseWhitespace {c : Char} {l : List Char}
    (h : c ∈ collapseWhitespace l) : c = Char.ofNat 32 ∨ c ∈ l :=
  mem_collapseWsAux h

theorem mem_trimChars {c : Char} {l : List Char} (h : c ∈ trimChars l) : c ∈ l := by
  unfold trimChars at h
  rw [List.mem_reverse] at h
  have h2 := List.IsSuffix.subset (List.dropWhile_suffix _) h
  rw [List.mem_reverse] at h2
  exact List.IsSuffix.subset (List.dropWhile_suffix _) h2

theorem mem_splitOnSpace {c : Char} :
    ∀ {l : List Char} {w : List Char}, w ∈ splitOnSpace l → c ∈ w → c ∈ l := by
  intro l
  induction l with
  | nil =>
    intro w hw hc
    simp only [splitOnSpace, List.mem_singleton] at hw
    subst hw
    exact absurd hc (List.not_mem_nil c)
  | cons d rest ih =>
    intro w hw hc
    rw [splitOnSpace] at hw
    by_cases hd : d == Char.ofNat 32
    · rw [if_pos hd] at hw
      rcases List.mem_cons.mp hw with hnil | hmem
      · subst hnil
        exact absurd hc (List.not_mem_nil c)
      · exact List.mem_cons_of_mem d (ih hmem hc)
    · rw [if_neg hd] at hw
      rcases hsplit : splitOnSpace rest with _ | ⟨w0, ws⟩
      · rw [hsplit] at hw
        simp only [List.mem_singleton] at hw
        subst hw
        rcases List.mem_cons.mp hc with hcd | hcm
        · exact hcd ▸ List.mem_cons_self d rest
        · exact absurd hcm (List.not_mem_nil c)
      · rw [hsplit] at hw
        rcases List.mem_cons.mp hw with hhead | htail
        · subst hhead
          rcases List.mem_cons.mp hc with hcd | hcm
          · exact hcd ▸ List.mem_cons_self d rest
          · exact List.mem_cons_of_mem d (ih (hsplit ▸ List.mem_cons_self w0 ws) hcm)
        · exact List.mem_cons_of_mem d (ih (hsplit ▸ List.mem_cons_of_mem w0 htail) hc)

theorem mem_joinSpaceChars {c : Char} :
    ∀ {ws : List String}, c ∈ joinSpaceChars ws →
      c = Char.ofNat 32 ∨ ∃ w ∈ ws, c ∈ w.data := by
  intro ws
  induction ws with
  | nil => intro h; exact absurd h (List.not_mem_nil c)
  | cons w ws ih =>
    intro h
    rcases ws with _ | ⟨w2, ws2⟩
    · exact Or.inr ⟨w, List.mem_singleton_self w, h⟩
    · rw [joinSpaceChars] at h
      rcases List.mem_append.mp h with hw | hrest
      · exact Or.inr ⟨w, List.mem_cons_self _ _, hw⟩
      · rcases List.mem_cons.mp hrest with h32 | hjoin
        · exact Or.inl h32
        · rcases ih hjoin with h32 | ⟨w3, hw3, hc3⟩
          · exact Or.inl h32
          · exact Or.inr ⟨w3, List.mem_cons_of_mem w hw3, hc3⟩

theorem cleanTextForSearch_kept (stop : List String) (text : String) :
    ∀ c ∈ (cleanTextForSearch stop text).data, isSearchKeptChar c = true := by
  intro c hc
  unfold cleanTextForSearch at hc
  simp only [data_mk] at hc
  rcases mem_joinSpaceChars hc with h32 | ⟨w, hw, hcw⟩
  · subst h32
    decide
  · have hw2 : w ∈ (splitOnSpace (trimChars (collapseWhitespace
        ((text.data.map Char.toLower).filter isSearchKeptChar)))).map
        (fun w0 => String.mk w0) := List.mem_of_mem_filter hw
    rcases List.mem_map.mp hw2 with ⟨w0, hw0, hmk⟩
    subst hmk
    rw [data_mk] at hcw
    have h1 := mem_splitOnSpace hw0 hcw
    have h2 := mem_trimChars h1
    rcases mem_collapseWhitespace h2 with h32 | h3
    · subst h32
      decide
    · exact List.of_mem_filter h3

theorem cleanTextForSearch_no_quote (stop : List String) (text : String) :
    sqlQuote ∉ (cleanTextForSearch stop text).data := by
  intro hmem
  have h := cleanTextForSearch_kept stop text sqlQuote hmem
  exact absurd h (by decide)

/-! ## Scanner composition lemmas -/

theorem sq_data : sq.data = [sqlQuote] := rfl

theorem escapeSQLString_data (s : String) :
    (escapeSQLString s).data = escapeChars s.data := rfl

theorem scan_raw (t : List Char) (ht : sqlQuote ∉ t) (rest : List Char) :
    scanPartsAux ScanState.outside (t ++ rest)
      = (scanPartsAux ScanState.outside rest).map (fun p => (p.1, t ++ p.2)) := by
  induction t with
  | nil =>
    rw [List.nil_append]
    cases h : scanPartsAux ScanState.outside rest <;> simp [h]
  | cons c t2 ih =>
    simp only [List.mem_cons, not_or] at ht
    have hc : (c == sqlQuote) = false := by
      simp only [beq_eq_false_iff_ne, ne_eq]
      exact fun hcq => ht.1 hcq.symm
    rw [List.cons_append, scanPartsAux, hc, ih ht.2]
    cases scanPartsAux ScanState.outside rest <;> simp

theorem scan_inside_escape (v : List Char) :
    ∀ (cur t rest : List Char), sqlQuote ∉ t → t ≠ [] →
      scanPartsAux (ScanState.inside cur) (escapeChars v ++ (sqlQuote :: (t ++ rest)))
        = (scanPartsAux ScanState.outside (t ++ rest)).map
            (fun p => (String.mk (cur.reverse ++ v) :: p.1, p.2)) := by
  induction v with
  | nil =>
    intro cur t rest ht hne
    rcases t with _ | ⟨c, t2⟩
    · exact absurd rfl hne
    simp only [List.mem_cons, not_or] at ht
    have hc : (c == sqlQuote) = false := by
      simp only [beq_eq_false_iff_ne, ne_eq]
      exact fun hcq => ht.1 hcq.symm
    show scanPartsAux (ScanState.inside cur) (sqlQuote :: (c :: (t2 ++ rest))) = _
    rw [scanPartsAux, if_pos (by simp), scanPartsAux, hc, List.cons_append,
      scanPartsAux, hc]
    cases scanPartsAux ScanState.outside (t2 ++ rest) <;> simp
  | cons a v2 ih =>
    intro cur t rest ht hne
    by_cases ha : a = sqlQuote
    · subst ha
      rw [escapeChars_cons, if_pos (by simp)]
      show scanPartsAux (ScanState.inside cur)
        (sqlQuote :: (sqlQuote :: (escapeChars v2 ++ (sqlQuote :: (t ++ rest))))) = _
      rw [scanPartsAux, if_pos (by simp), scanPartsAux, if_pos (by simp),
        ih (sqlQuote :: cur) t rest ht hne]
      cases scanPartsAux ScanState.outside (t ++ rest) <;> simp
    · rw [escapeChars_cons, if_neg (by simpa using ha)]
      show scanPartsAux (ScanState.inside cur)
        (a :: (escapeChars v2 ++ (sqlQuote :: (t ++ rest)))) = _
      have ha2 : (a == sqlQuote) = false := by
        simp only [beq_eq_false_iff_ne, ne_eq]
        exact ha
      rw [scanPartsAux, ha2, ih (a :: cur) t rest ht hne]
      cases scanPartsAux ScanState.outside (t ++ rest) <;> simp

theorem scan_field (s : String) (t rest : List Char) (ht : sqlQuote ∉ t) (hne : t ≠ []) :
    scanPartsAux ScanState.outside
        ([sqlQuote] ++ (escapeChars s.data ++ ([sqlQuote] ++ (t ++ rest))))
      = (scanPartsAux ScanState.outside (t ++ rest)).map (fun p => (s :: p.1, p.2)) := by
  rw [List.singleton_append, List.singleton_append, scanPartsAux, if_pos (by simp),
    scan_inside_escape s.data [] t rest ht hne]
  simp [mk_data]

theorem scan_field_raw (s : String) (hs : sqlQuote ∉ s.data) (t rest : List Char)
    (ht : sqlQuote ∉ t) (hne : t ≠ []) :
    scanPartsAux ScanState.outside
        ([sqlQuote] ++ (s.data ++ ([sqlQuote] ++ (t ++ rest))))
      = (scanPartsAux ScanState.outside (t ++ rest)).map (fun p => (s :: p.1, p.2)) := by
  rw [← escapeChars_eq_self hs]
  exact scan_field s t rest ht hne

/-! ## Interpolated numbers contain no quote -/

theorem sqlQuote_ne_digitChar (d : Nat) (hd : d < 10) : sqlQuote ≠ digitChar d := by
  intro h2
  have h3 := congrArg Char.toNat h2
  have h39 : Char.toNat sqlQuote = 39 := by decide
  unfold digitChar at h3
  rw [char_toNat_ofNat (48 + d) (by omega)] at h3
  omega

theorem sqlQuote_not_mem_natToCharsAux :
    ∀ (fuel n : Nat), sqlQuote ∉ natToCharsAux fuel n := by
  intro fuel
  induction fuel with
  | zero =>
    intro n
    exact List.not_mem_nil sqlQuote
  | succ fuel ih =>
    intro n
    rw [natToCharsAux]
    split
    next hlt =>
      intro hmem
      exact sqlQuote_ne_digitChar n hlt (List.mem_singleton.mp hmem)
    next hge =>
      intro hmem
      rcases List.mem_append.mp hmem with h1 | h2
      · exact ih (n / 10) h1
      · exact sqlQuote_ne_digitChar (n % 10) (by omega) (List.mem_singleton.mp h2)

theorem sqlQuote_not_mem_natToChars (n : Nat) : sqlQuote ∉ natToChars n :=
  sqlQuote_not_mem_natToCharsAux (n + 1) n

theorem sqlQuote_not_mem_jsNum (n : Int) : sqlQuote ∉ (jsNumToString n).data := by
  unfold jsNumToString
  split
  · rw [data_mk]
    intro hmem
    rcases List.mem_cons.mp hmem with h1 | h2
    · have h3 := congrArg Char.toNat h1
      have h39 : Char.toNat sqlQuote = 39 := by decide
      rw [char_toNat_ofNat 45 (by omega)] at h3
      omega
    · exact sqlQuote_not_mem_natToChars _ h2
  · rw [data_mk]
    exact sqlQuote_not_mem_natToChars _

/-! ## Rest-last variants of the field lemmas, for rewriting -/

theorem scan_field5 (s : String) (t : List Char) (ht : sqlQuote ∉ t) (hne : t ≠ []) :
    ∀ rest, scanPartsAux ScanState.outside
        ([sqlQuote] ++ (escapeChars s.data ++ ([sqlQuote] ++ (t ++ rest))))
      = (scanPartsAux ScanState.outside (t ++ rest)).map (fun p => (s :: p.1, p.2)) :=
  fun rest => scan_field s t rest ht hne

theorem scan_field_raw5 (s : String) (hs : sqlQuote ∉ s.data) (t : List Char)
    (ht : sqlQuote ∉ t) (hne : t ≠ []) :
    ∀ rest, scanPartsAux ScanState.outside
        ([sqlQuote] ++ (s.data ++ ([sqlQuote] ++ (t ++ rest))))
      = (scanPartsAux ScanState.outside (t ++ rest)).map (fun p => (s :: p.1, p.2)) :=
  fun rest => scan_field_raw s hs t rest ht hne

/-! ## Equation helpers -/

theorem joinWith_nil (sep : String) : joinWith sep [] = "" := rfl

theorem joinWith_single (sep a : String) : joinWith sep [a] = a := rfl

theorem joinWith_cons (sep a b : String) (rest : List String) :
    joinWith sep (a :: b :: rest) = a ++ sep ++ joinWith sep (b :: rest) := rfl

theorem tagsInsertSql_nil : tagsInsertSql [] = "" := rfl

theorem tagsInsertSql_cons (x : String) (xs : List String) :
    tagsInsertSql (x :: xs)
      = "\n          INSERT OR IGNORE INTO note_tag \n          (note_path, tag_name, tag_name_lower) \n          VALUES \n          "
        ++ joinWith ",\n" (x :: xs) ++ " ;\n        " := by
  unfold tagsInsertSql
  rw [if_pos (by simp : (x :: xs).length > 0)]

theorem fmInsertSql_nil : fmInsertSql [] = "" := rfl

theorem fmInsertSql_cons (x : String) (xs : List String) :
    fmInsertSql (x :: xs)
      = "\n        INSERT OR IGNORE INTO note_frontmatter \n        (note_path, frontmatter_name, frontmatter_value, frontmatter_value_lower)\n        VALUES\n        "
        ++ joinWith ",\n" (x :: xs) ++ ";\n    " := by
  unfold fmInsertSql
  rw [if_pos (by simp : (x :: xs).length > 0)]

theorem tagTuple_eq_render (path tag : String) :
    tagTuple path tag = renderTagRow (tagRowOf path tag) := by
  unfold tagTuple renderTagRow tagRowOf
  rw [escapeSQLString_jsToLower]

theorem fmTuple_eq_render (path : String) (entry : String × String) :
    fmTuple path entry = renderFmRow (fmRowOf path entry) := rfl

theorem tagTuples_eq_render (files : List FileInfo) :
    tagTuples files = (tagRowsOf files).map renderTagRow := by
  induction files with
  | nil => rfl
  | cons f fs ih =>
    show (f.tags.map (fun tag => tagTuple f.path tag)) ++ tagTuples fs
      = ((f.tags.map (tagRowOf f.path)) ++ tagRowsOf fs).map renderTagRow
    rw [List.map_append, ih, List.map_map]
    congr 1
    exact List.map_congr_left (fun tag _ => tagTuple_eq_render f.path tag)

theorem fmTuples_eq_render (files : List FileInfo) :
    fmTuples files = (fmRowsOf files).map renderFmRow := by
  induction files with
  | nil => rfl
  | cons f fs ih =>
    show (f.frontmatter.map (fun entry => fmTuple f.path entry)) ++ fmTuples fs
      = ((f.frontmatter.map (fmRowOf f.path)) ++ fmRowsOf fs).map renderFmRow
    rw [List.map_append, ih, List.map_map]
    congr 1

/-! ## Literal extraction for each statement builder -/

theorem scan_noteTuple (stop : List String) (f : FileInfo) (t rest : List Char)
    (lits : List String) (out : List Char)
    (h : scanPartsAux ScanState.outside (t ++ rest) = some (lits, out)) :
    ∃ out2, scanPartsAux ScanState.outside ((noteTuple stop f).data ++ (t ++ rest))
      = some (f.path :: f.title :: jsToLower f.title :: cleanTextForSearch stop f.content :: lits,
          out2) := by
  unfold noteTuple
  repeat rw [String.data_append]
  rw [sq_data]
  repeat rw [escapeSQLString_data]
  repeat rw [List.append_assoc]
  rw [scan_raw ("(").data (by decide),
    scan_field5 f.path (", ").data (by decide) (by decide),
    scan_raw (", ").data (by decide),
    scan_field5 f.title (", ").data (by decide) (by decide),
    scan_raw (", ").data (by decide),
    scan_field5 (jsToLower f.title) (", ").data (by decide) (by decide),
    scan_raw (", ").data (by decide),
    scan_field_raw5 (cleanTextForSearch stop f.content)
      (cleanTextForSearch_no_quote stop f.content) (", ").data (by decide) (by decide),
    scan_raw (", ").data (by decide),
    scan_raw (jsNumToString f.created).data (sqlQuote_not_mem_jsNum _),
    scan_raw (", ").data (by decide),
    scan_raw (jsNumToString f.last_modified).data (sqlQuote_not_mem_jsNum _),
    scan_raw (")").data (by decide), h]
  exact ⟨_, rfl⟩

theorem scan_tagRowTuple (r : NoteTagRow) (t rest : List Char)
    (lits : List String) (out : List Char)
    (h : scanPartsAux ScanState.outside (t ++ rest) = some (lits, out)) :
    ∃ out2, scanPartsAux ScanState.outside ((renderTagRow r).data ++ (t ++ rest))
      = some (r.note_path :: r.tag_name :: r.tag_name_lower :: lits, out2) := by
  unfold renderTagRow
  repeat rw [String.data_append]
  rw [sq_data]
  repeat rw [escapeSQLString_data]
  repeat rw [List.append_assoc]
  rw [scan_raw ("(").data (by decide),
    scan_field5 r.note_path (", ").data (by decide) (by decide),
    scan_raw (", ").data (by decide),
    scan_field5 r.tag_name (", ").data (by decide) (by decide),
    scan_raw (", ").data (by decide),
    scan_field5 r.tag_name_lower (")").data (by decide) (by decide),
    scan_raw (")").data (by decide), h]
  exact ⟨_, rfl⟩

theorem scan_fmRowTuple (r : NoteFmRow) (t rest : List Char)
    (lits : List String) (out : List Char)
    (h : scanPartsAux ScanState.outside (t ++ rest) = some (lits, out)) :
    ∃ out2, scanPartsAux ScanState.outside ((renderFmRow r).data ++ (t ++ rest))
      = some (r.note_path :: r.fm_name :: r.fm_value :: r.fm_value_lower :: lits, out2) := by
  unfold renderFmRow
  repeat rw [String.data_append]
  rw [sq_data]
  repeat rw [escapeSQLString_data]
  repeat rw [List.append_assoc]
  rw [scan_raw ("(").data (by decide),
    scan_field5 r.note_path (", ").data (by decide) (by decide),
    scan_raw (", ").data (by decide),
    scan_field5 r.fm_name (", ").data (by decide) (by decide),
    scan_raw (", ").data (by decide),
    scan_field5 r.fm_value (", ").data (by decide) (by decide),
    scan_raw (", ").data (by decide),
    scan_field5 r.fm_value_lower (")").data (by decide) (by decide),
    scan_raw (")").data (by decide), h]
  exact ⟨_, rfl⟩

theorem scan_allPaths (files : List FileInfo) :
    ∀ (t rest : List Char), sqlQuote ∉ t → t ≠ [] → ∀ (lits : List String) (out : List Char),
      scanPartsAux ScanState.outside (t ++ rest) = some (lits, out) →
      ∃ out2, scanPartsAux ScanState.outside ((allPathsSql files).data ++ (t ++ rest))
        = some (files.map (fun f => f.path) ++ lits, out2) := by
  induction files with
  | nil =>
    intro t rest ht hne lits out h
    exact ⟨out, h⟩
  | cons f fs ih =>
    intro t rest ht hne lits out h
    cases fs with
    | nil =>
      show ∃ out2, scanPartsAux ScanState.outside
          ((sq ++ escapeSQLString f.path ++ sq).data ++ (t ++ rest))
        = some (f.path :: lits, out2)
      repeat rw [String.data_append]
      rw [sq_data, escapeSQLString_data]
      repeat rw [List.append_assoc]
      rw [scan_field f.path t rest ht hne, h]
      exact ⟨_, rfl⟩
    | cons g gs =>
      obtain ⟨out3, h3⟩ := ih t rest ht hne lits out h
      show ∃ out2, scanPartsAux ScanState.outside
          (((sq ++ escapeSQLString f.path ++ sq) ++ "," ++ allPathsSql (g :: gs)).data
            ++ (t ++ rest))
        = some (f.path :: ((g :: gs).map (fun f => f.path) ++ lits), out2)
      repeat rw [String.data_append]
      rw [sq_data, escapeSQLString_data]
      repeat rw [List.append_assoc]
      rw [scan_field5 f.path (",").data (by decide) (by decide),
        scan_raw (",").data (by decide), h3]
      exact ⟨_, rfl⟩

theorem noteLiteralsOf_cons (stop : List String) (f : FileInfo) (fs : List FileInfo) :
    noteLiteralsOf stop (f :: fs)
      = [f.path, f.title, jsToLower f.title, cleanTextForSearch stop f.content]
        ++ noteLiteralsOf stop fs := rfl

theorem scan_noteValues (stop : List String) (files : List FileInfo) :
    ∀ (t rest : List Char), sqlQuote ∉ t → t ≠ [] → ∀ (lits : List String) (out : List Char),
      scanPartsAux ScanState.outside (t ++ rest) = some (lits, out) →
      ∃ out2, scanPartsAux ScanState.outside
          ((joinWith ",\n" (files.map (noteTuple stop))).data ++ (t ++ rest))
        = some (noteLiteralsOf stop files ++ lits, out2) := by
  induction files with
  | nil =>
    intro t rest ht hne lits out h
    exact ⟨out, h⟩
  | cons f fs ih =>
    intro t rest ht hne lits out h
    cases fs with
    | nil =>
      obtain ⟨out2, h2⟩ := scan_noteTuple stop f t rest lits out h
      exact ⟨out2, h2⟩
    | cons g gs =>
      obtain ⟨out3, h3⟩ := ih t rest ht hne lits out h
      have h4 : scanPartsAux ScanState.outside
          (((",\n" : String)).data
            ++ ((joinWith ",\n" ((g :: gs).map (noteTuple stop))).data ++ (t ++ rest)))
          = some (noteLiteralsOf stop (g :: gs) ++ lits, ((",\n" : String)).data ++ out3) := by
        rw [scan_raw ((",\n" : String)).data (by decide), h3]
        rfl
      obtain ⟨out2, h5⟩ := scan_noteTuple stop f ((",\n" : String)).data
        ((joinWith ",\n" ((g :: gs).map (noteTuple stop))).data ++ (t ++ rest)) _ _ h4
      refine ⟨out2, ?_⟩
      show scanPartsAux ScanState.outside
          ((noteTuple stop f ++ ",\n" ++ joinWith ",\n" ((g :: gs).map (noteTuple stop))).data
            ++ (t ++ rest)) = _
      repeat rw [String.data_append]
      repeat rw [List.append_assoc]
      rw [noteLiteralsOf_cons, List.append_assoc]
      exact h5

theorem scan_tagRows (rows : List NoteTagRow) :
    ∀ (t rest : List Char), sqlQuote ∉ t → t ≠ [] → ∀ (lits : List String) (out : List Char),
      scanPartsAux ScanState.outside (t ++ rest) = some (lits, out) →
      ∃ out2, scanPartsAux ScanState.outside
          ((joinWith ",\n" (rows.map renderTagRow)).data ++ (t ++ rest))
        = some (rows.flatMap (fun r => [r.note_path, r.tag_name, r.tag_name_lower]) ++ lits,
            out2) := by
  induction rows with
  | nil =>
    intro t rest ht hne lits out h
    exact ⟨out, h⟩
  | cons r rs ih =>
    intro t rest ht hne lits out h
    cases rs with
    | nil =>
      obtain ⟨out2, h2⟩ := scan_tagRowTuple r t rest lits out h
      exact ⟨out2, h2⟩
    | cons r2 rs2 =>
      obtain ⟨out3, h3⟩ := ih t rest ht hne lits out h
      have h4 : scanPartsAux ScanState.outside
          (((",\n" : String)).data
            ++ ((joinWith ",\n" ((r2 :: rs2).map renderTagRow)).data ++ (t ++ rest)))
          = some ((r2 :: rs2).flatMap (fun r => [r.note_path, r.tag_name, r.tag_name_lower])
              ++ lits, ((",\n" : String)).data ++ out3) := by
        rw [scan_raw ((",\n" : String)).data (by decide), h3]
        rfl
      obtain ⟨out2, h5⟩ := scan_tagRowTuple r ((",\n" : String)).data
        ((joinWith ",\n" ((r2 :: rs2).map renderTagRow)).data ++ (t ++ rest)) _ _ h4
      refine ⟨out2, ?_⟩
      show scanPartsAux ScanState.outside
          ((renderTagRow r ++ ",\n" ++ joinWith ",\n" ((r2 :: rs2).map renderTagRow)).data
            ++ (t ++ rest)) = _
      repeat rw [String.data_append]
      repeat rw [List.append_assoc]
      rw [show ((r :: r2 :: rs2).flatMap (fun r => [r.note_path, r.tag_name, r.tag_name_lower]))
          = [r.note_path, r.tag_name, r.tag_name_lower]
            ++ ((r2 :: rs2).flatMap (fun r => [r.note_path, r.tag_name, r.tag_name_lower]))
          from rfl, List.append_assoc]
      exact h5

theorem scan_fmRows (rows : List NoteFmRow) :
    ∀ (t rest : List Char), sqlQuote ∉ t → t ≠ [] → ∀ (lits : List String) (out : List Char),
      scanPartsAux ScanState.outside (t ++ rest) = some (lits, out) →
      ∃ out2, scanPartsAux ScanState.outside
          ((joinWith ",\n" (rows.map renderFmRow)).data ++ (t ++ rest))
        = some (rows.flatMap (fun r => [r.note_path, r.fm_name, r.fm_value, r.fm_value_lower])
            ++ lits, out2) := by
  induction rows with
  | nil =>
    intro t rest ht hne lits out h
    exact ⟨out, h⟩
  | cons r rs ih =>
    intro t rest ht hne lits out h
    cases rs with
    | nil =>
      obtain ⟨out2, h2⟩ := scan_fmRowTuple r t rest lits out h
      exact ⟨out2, h2⟩
    | cons r2 rs2 =>
      obtain ⟨out3, h3⟩ := ih t rest ht hne lits out h
      have h4 : scanPartsAux ScanState.outside
          (((",\n" : String)).data
            ++ ((joinWith ",\n" ((r2 :: rs2).map renderFmRow)).data ++ (t ++ rest)))
          = some ((r2 :: rs2).flatMap (fun r => [r.note_path, r.fm_name, r.fm_value, r.fm_value_lower])
              ++ lits, ((",\n" : String)).data ++ out3) := by
        rw [scan_raw ((",\n" : String)).data (by decide), h3]
        rfl
      obtain ⟨out2, h5⟩ := scan_fmRowTuple r ((",\n" : String)).data
        ((joinWith ",\n" ((r2 :: rs2).map renderFmRow)).data ++ (t ++ rest)) _ _ h4
      refine ⟨out2, ?_⟩
      show scanPartsAux ScanState.outside
          ((renderFmRow r ++ ",\n" ++ joinWith ",\n" ((r2 :: rs2).map renderFmRow)).data
            ++ (t ++ rest)) = _
      repeat rw [String.data_append]
      repeat rw [List.append_assoc]
      rw [show ((r :: r2 :: rs2).flatMap
            (fun r => [r.note_path, r.fm_name, r.fm_value, r.fm_value_lower]))
          = [r.note_path, r.fm_name, r.fm_value, r.fm_value_lower]
            ++ ((r2 :: rs2).flatMap (fun r => [r.note_path, r.fm_name, r.fm_value, r.fm_value_lower]))
          from rfl, List.append_assoc]
      exact h5

theorem sqlLiterals_deleteNote (p : String) : sqlLiterals (getDeleteNoteSql p) = some [p] := by
  unfold sqlLiterals scanParts getDeleteNoteSql
  repeat rw [String.data_append]
  rw [sq_data, escapeSQLString_data]
  repeat rw [List.append_assoc]
  rw [show ((";" : String)).data = ((";" : String)).data ++ [] from (List.append_nil _).symm]
  rw [scan_raw ("DELETE FROM note WHERE path = ").data (by decide)]
  rw [scan_field p ((";" : String)).data [] (by decide) (by decide)]
  rw [show scanPartsAux ScanState.outside (((";" : String)).data ++ [])
    = some ([], ((";" : String)).data) from by decide]
  rfl

theorem sqlLiterals_lastOpened (now : Int) (p : String) :
    sqlLiterals (getUpdateLastOpenedSql now p) = some [p] := by
  unfold sqlLiterals scanParts getUpdateLastOpenedSql
  repeat rw [String.data_append]
  rw [sq_data, escapeSQLString_data]
  repeat rw [List.append_assoc]
  rw [show ((";\n" : String)).data = ((";\n" : String)).data ++ [] from (List.append_nil _).symm]
  rw [scan_raw ("\n  UPDATE note\n  SET last_opened = ").data (by decide)]
  rw [scan_raw (jsNumToString now).data (sqlQuote_not_mem_jsNum _)]
  rw [scan_raw ("\n  WHERE path = ").data (by decide)]
  rw [scan_field p ((";\n" : String)).data [] (by decide) (by decide)]
  rw [show scanPartsAux ScanState.outside (((";\n" : String)).data ++ [])
    = some ([], ((";\n" : String)).data) from by decide]
  rfl

theorem sqlLiterals_updateNote (stop : List String) (files : List FileInfo) :
    sqlLiterals (getUpdateNoteSql stop files) = some (noteLiteralsOf stop files) := by
  unfold sqlLiterals scanParts getUpdateNoteSql
  repeat rw [String.data_append]
  repeat rw [List.append_assoc]
  rw [show ((";\n  " : String)).data = ((";\n  " : String)).data ++ []
    from (List.append_nil _).symm]
  obtain ⟨out2, h1⟩ := scan_noteValues stop files ((";\n  " : String)).data [] (by decide)
    (by decide) [] ((";\n  " : String)).data (by decide)
  rw [scan_raw ("\n    INSERT OR REPLACE INTO note (path, title, title_lower, content_lower, created, last_modified)\n    VALUES \n    ").data (by decide), h1,
    List.append_nil]
  rfl

theorem sqlLiterals_updateTags (files : List FileInfo) :
    sqlLiterals (getUpdateTagsSql files) = some (tagLiteralsOf files) := by
  unfold sqlLiterals scanParts getUpdateTagsSql
  rw [tagTuples_eq_render]
  cases hrows : tagRowsOf files with
  | nil =>
    rw [List.map_nil, tagsInsertSql_nil]
    repeat rw [String.data_append]
    repeat rw [List.append_assoc]
    rw [show (("" : String)).data = ([] : List Char) from rfl, List.nil_append]
    rw [show (("\n  " : String)).data = (("\n  " : String)).data ++ []
      from (List.append_nil _).symm]
    have hbase : scanPartsAux ScanState.outside
        ((("); \n\n    " : String)).data ++ ((("\n  " : String)).data ++ []))
        = some ([], (("); \n\n    " : String)).data ++ (("\n  " : String)).data) := by decide
    obtain ⟨out2, h1⟩ := scan_allPaths files (("); \n\n    " : String)).data
      ((("\n  " : String)).data ++ []) (by decide) (by decide) [] _ hbase
    rw [scan_raw ("\n    DELETE FROM note_tag \n    WHERE note_path IN (").data (by decide), h1]
    unfold tagLiteralsOf
    rw [hrows]
    rfl
  | cons r rs =>
    rw [List.map_cons, tagsInsertSql_cons]
    repeat rw [String.data_append]
    repeat rw [List.append_assoc]
    rw [show (("\n  " : String)).data = (("\n  " : String)).data ++ []
      from (List.append_nil _).symm]
    have hbase : scanPartsAux ScanState.outside
        (((" ;\n        " : String)).data ++ ((("\n  " : String)).data ++ []))
        = some ([], ((" ;\n        " : String)).data ++ (("\n  " : String)).data) := by decide
    obtain ⟨out3, h3⟩ := scan_tagRows (r :: rs) ((" ;\n        " : String)).data
      ((("\n  " : String)).data ++ []) (by decide) (by decide) [] _ hbase
    rw [show joinWith ",\n" (renderTagRow r :: List.map renderTagRow rs)
      = joinWith ",\n" ((r :: rs).map renderTagRow) from rfl] at *
    have h4 : scanPartsAux ScanState.outside
        (("\n          INSERT OR IGNORE INTO note_tag \n          (note_path, tag_name, tag_name_lower) \n          VALUES \n          ").data
          ++ ((joinWith ",\n" ((r :: rs).map renderTagRow)).data
            ++ (((" ;\n        " : String)).data ++ ((("\n  " : String)).data ++ []))))
        = some ((r :: rs).flatMap (fun r => [r.note_path, r.tag_name, r.tag_name_lower]) ++ [],
            ("\n          INSERT OR IGNORE INTO note_tag \n          (note_path, tag_name, tag_name_lower) \n          VALUES \n          ").data ++ out3) := by
      rw [scan_raw ("\n          INSERT OR IGNORE INTO note_tag \n          (note_path, tag_name, tag_name_lower) \n          VALUES \n          ").data (by decide), h3]
      rfl
    have h5 : scanPartsAux ScanState.outside
        ((("); \n\n    " : String)).data
          ++ (("\n          INSERT OR IGNORE INTO note_tag \n          (note_path, tag_name, tag_name_lower) \n          VALUES \n          ").data
            ++ ((joinWith ",\n" ((r :: rs).map renderTagRow)).data
              ++ (((" ;\n        " : String)).data ++ ((("\n  " : String)).data ++ [])))))
        = some ((r :: rs).flatMap (fun r => [r.note_path, r.tag_name, r.tag_name_lower]) ++ [],
            (("); \n\n    " : String)).data
              ++ (("\n          INSERT OR IGNORE INTO note_tag \n          (note_path, tag_name, tag_name_lower) \n          VALUES \n          ").data ++ out3)) := by
      rw [scan_raw (("); \n\n    " : String)).data (by decide), h4]
      rfl
    obtain ⟨out6, h6⟩ := scan_allPaths files (("); \n\n    " : String)).data
      (("\n          INSERT OR IGNORE INTO note_tag \n          (note_path, tag_name, tag_name_lower) \n          VALUES \n          ").data
        ++ ((joinWith ",\n" ((r :: rs).map renderTagRow)).data
          ++ (((" ;\n        " : String)).data ++ ((("\n  " : String)).data ++ []))))
      (by decide) (by decide) _ _ h5
    rw [scan_raw ("\n    DELETE FROM note_tag \n    WHERE note_path IN (").data (by decide), h6,
      List.append_nil]
    unfold tagLiteralsOf
    rw [hrows]
    rfl

theorem sqlLiterals_updateFrontmatter (files : List FileInfo) :
    sqlLiterals (getUpdateFrontmatterSql files) = some (fmLiteralsOf files) := by
  unfold sqlLiterals scanParts getUpdateFrontmatterSql
  rw [fmTuples_eq_render]
  cases hrows : fmRowsOf files with
  | nil =>
    rw [List.map_nil, fmInsertSql_nil]
    repeat rw [String.data_append]
    repeat rw [List.append_assoc]
    rw [show (("" : String)).data = ([] : List Char) from rfl, List.nil_append]
    rw [show (("\n  " : String)).data = (("\n  " : String)).data ++ []
      from (List.append_nil _).symm]
    have hbase : scanPartsAux ScanState.outside
        ((("); \n\n    " : String)).data ++ ((("\n  " : String)).data ++ []))
        = some ([], (("); \n\n    " : String)).data ++ (("\n  " : String)).data) := by decide
    obtain ⟨out2, h1⟩ := scan_allPaths files (("); \n\n    " : String)).data
      ((("\n  " : String)).data ++ []) (by decide) (by decide) [] _ hbase
    rw [scan_raw ("\n    DELETE FROM note_frontmatter\n    WHERE note_path IN (").data (by decide), h1]
    unfold fmLiteralsOf
    rw [hrows]
    rfl
  | cons r rs =>
    rw [List.map_cons, fmInsertSql_cons]
    repeat rw [String.data_append]
    repeat rw [List.append_assoc]
    rw [show (("\n  " : String)).data = (("\n  " : String)).data ++ []
      from (List.append_nil _).symm]
    have hbase : scanPartsAux ScanState.outside
        (((";\n    " : String)).data ++ ((("\n  " : String)).data ++ []))
        = some ([], ((";\n    " : String)).data ++ (("\n  " : String)).data) := by decide
    obtain ⟨out3, h3⟩ := scan_fmRows (r :: rs) ((";\n    " : String)).data
      ((("\n  " : String)).data ++ []) (by decide) (by decide) [] _ hbase
    rw [show joinWith ",\n" (renderFmRow r :: List.map renderFmRow rs)
      = joinWith ",\n" ((r :: rs).map renderFmRow) from rfl] at *
    have h4 : scanPartsAux ScanState.outside
        (("\n        INSERT OR IGNORE INTO note_frontmatter \n        (note_path, frontmatter_name, frontmatter_value, frontmatter_value_lower)\n        VALUES\n        ").data
          ++ ((joinWith ",\n" ((r :: rs).map renderFmRow)).data
            ++ (((";\n    " : String)).data ++ ((("\n  " : String)).data ++ []))))
        = some ((r :: rs).flatMap (fun r => [r.note_path, r.fm_name, r.fm_value, r.fm_value_lower]) ++ [],
            ("\n        INSERT OR IGNORE INTO note_frontmatter \n        (note_path, frontmatter_name, frontmatter_value, frontmatter_value_lower)\n        VALUES\n        ").data ++ out3) := by
      rw [scan_raw ("\n        INSERT OR IGNORE INTO note_frontmatter \n        (note_path, frontmatter_name, frontmatter_value, frontmatter_value_lower)\n        VALUES\n        ").data (by decide), h3]
      rfl
    have h5 : scanPartsAux ScanState.outside
        ((("); \n\n    " : String)).data
          ++ (("\n        INSERT OR IGNORE INTO note_frontmatter \n        (note_path, frontmatter_name, frontmatter_value, frontmatter_value_lower)\n        VALUES\n        ").data
            ++ ((joinWith ",\n" ((r :: rs).map renderFmRow)).data
              ++ (((";\n    " : String)).data ++ ((("\n  " : String)).data ++ [])))))
        = some ((r :: rs).flatMap (fun r => [r.note_path, r.fm_name, r.fm_value, r.fm_value_lower]) ++ [],
            (("); \n\n    " : String)).data
              ++ (("\n        INSERT OR IGNORE INTO note_frontmatter \n        (note_path, frontmatter_name, frontmatter_value, frontmatter_value_lower)\n        VALUES\n        ").data ++ out3)) := by
      rw [scan_raw (("); \n\n    " : String)).data (by decide), h4]
      rfl
    obtain ⟨out6, h6⟩ := scan_allPaths files (("); \n\n    " : String)).data
      (("\n        INSERT OR IGNORE INTO note_frontmatter \n        (note_path, frontmatter_name, frontmatter_value, frontmatter_value_lower)\n        VALUES\n        ").data
        ++ ((joinWith ",\n" ((r :: rs).map renderFmRow)).data
          ++ (((";\n    " : String)).data ++ ((("\n  " : String)).data ++ []))))
      (by decide) (by decide) _ _ h5
    rw [scan_raw ("\n    DELETE FROM note_frontmatter\n    WHERE note_path IN (").data (by decide), h6,
      List.append_nil]
    unfold fmLiteralsOf
    rw [hrows]
    rfl

/-! ## Semantics of the tag relation replace -/

theorem any_clash_filter (fp : String) (r : NoteTagRow) (hp : r.note_path = fp) :
    ∀ base : List NoteTagRow,
      base.any (tagPKClash r) = (base.filter (fun s => s.note_path == fp)).any (tagPKClash r) := by
  intro base
  induction base with
  | nil => rfl
  | cons s bs ih =>
    by_cases hps : s.note_path = fp
    · rw [List.filter_cons_of_pos (by simp [hps]), List.any_cons, List.any_cons, ih]
    · rw [List.filter_cons_of_neg (by simp [hps]), List.any_cons, ih]
      have hclash : tagPKClash r s = false := by
        have h1 : (r.note_path == s.note_path) = false := by
          rw [hp]
          exact beq_eq_false_iff_ne.mpr (fun he => hps he.symm)
        unfold tagPKClash
        rw [h1, Bool.false_and]
      rw [hclash, Bool.false_or]

theorem filter_insertFold (fp : String) :
    ∀ (rows base : List NoteTagRow),
      ((rows.foldl (fun cur r => if cur.any (tagPKClash r) then cur else cur ++ [r]) base).filter
          (fun r => r.note_path == fp))
        = ((rows.filter (fun r => r.note_path == fp)).foldl
            (fun cur r => if cur.any (tagPKClash r) then cur else cur ++ [r])
            (base.filter (fun r => r.note_path == fp))) := by
  intro rows
  induction rows with
  | nil => intro base; rfl
  | cons r rs ih =>
    intro base
    by_cases hp : r.note_path = fp
    · have hstep : ((if base.any (tagPKClash r) then base else base ++ [r]).filter
            (fun s => s.note_path == fp))
          = (if (base.filter (fun s => s.note_path == fp)).any (tagPKClash r)
              then base.filter (fun s => s.note_path == fp)
              else base.filter (fun s => s.note_path == fp) ++ [r]) := by
        rw [← any_clash_filter fp r hp base]
        cases hcl : base.any (tagPKClash r)
        · rw [if_neg (by simp), if_neg (by simp), List.filter_append]
          simp [hp]
        · rw [if_pos rfl, if_pos rfl]
      rw [List.filter_cons_of_pos (by simp [hp]), List.foldl_cons, List.foldl_cons,
        ih (if base.any (tagPKClash r) then base else base ++ [r]), hstep]
    · have hstep : ((if base.any (tagPKClash r) then base else base ++ [r]).filter
            (fun s => s.note_path == fp))
          = base.filter (fun s => s.note_path == fp) := by
        cases hcl : base.any (tagPKClash r)
        · rw [if_neg (by simp), List.filter_append]
          simp [hp]
        · rw [if_pos rfl]
      rw [List.filter_cons_of_neg (by simp [hp]), List.foldl_cons,
        ih (if base.any (tagPKClash r) then base else base ++ [r]), hstep]

theorem tagRowsOf_filter_not_mem (fp : String) :
    ∀ (files : List FileInfo), fp ∉ files.map (fun f => f.path) →
      (tagRowsOf files).filter (fun r => r.note_path == fp) = [] := by
  intro files
  induction files with
  | nil => intro h; rfl
  | cons g fs ih =>
    intro h
    simp only [List.map_cons, List.mem_cons, not_or] at h
    show ((g.tags.map (tagRowOf g.path)) ++ tagRowsOf fs).filter _ = []
    rw [List.filter_append, ih h.2, List.append_nil]
    rw [List.filter_eq_nil_iff]
    intro r hr
    rcases List.mem_map.mp hr with ⟨tag, htag, hrfl⟩
    subst hrfl
    show ¬ ((g.path == fp) = true)
    simp only [beq_iff_eq]
    exact fun he => h.1 he.symm

theorem filter_self_part (f : FileInfo) :
    (f.tags.map (tagRowOf f.path)).filter (fun r => r.note_path == f.path)
      = f.tags.map (tagRowOf f.path) := by
  rw [List.filter_eq_self]
  intro r hr
  rcases List.mem_map.mp hr with ⟨tag, htag, hrfl⟩
  subst hrfl
  show (f.path == f.path) = true
  simp

theorem insert_rows_dedup (fp : String) :
    ∀ (l : List String) (kept : List NoteTagRow) (seen : List String),
      (∀ x, x ∈ seen ↔ ∃ r ∈ kept, r.tag_name_lower = x) →
      (∀ r ∈ kept, r.note_path = fp) →
      ((l.map (fun t => (⟨fp, t, jsToLower t⟩ : NoteTagRow))).foldl
          (fun cur r => if cur.any (tagPKClash r) then cur else cur ++ [r]) kept)
        = kept ++ (dedupByLowerAux seen l).map (fun t => (⟨fp, t, jsToLower t⟩ : NoteTagRow)) := by
  intro l
  induction l with
  | nil =>
    intro kept seen hseen hpath
    rw [List.map_nil, List.foldl_nil, dedupByLowerAux, List.map_nil, List.append_nil]
  | cons t ts ih =>
    intro kept seen hseen hpath
    rw [List.map_cons, List.foldl_cons, dedupByLowerAux]
    have hany : kept.any (tagPKClash ⟨fp, t, jsToLower t⟩) = true ↔ jsToLower t ∈ seen := by
      rw [List.any_eq_true]
      constructor
      · rintro ⟨s, hs, hcl⟩
        unfold tagPKClash at hcl
        rw [Bool.and_eq_true] at hcl
        rcases hcl with ⟨h1, h2⟩
        exact (hseen (jsToLower t)).mpr ⟨s, hs, (beq_iff_eq.mp h2).symm⟩
      · intro hmem
        rcases (hseen (jsToLower t)).mp hmem with ⟨s, hs, hlow⟩
        refine ⟨s, hs, ?_⟩
        unfold tagPKClash
        rw [Bool.and_eq_true, beq_iff_eq, beq_iff_eq]
        exact ⟨(hpath s hs).symm, hlow.symm⟩
    by_cases hmem : jsToLower t ∈ seen
    · rw [if_pos (hany.mpr hmem), if_pos hmem]
      exact ih kept seen hseen hpath
    · rw [if_neg (fun hc => hmem (hany.mp hc)), if_neg hmem]
      have hseen2 : ∀ x, x ∈ (jsToLower t :: seen) ↔
          ∃ r ∈ kept ++ [(⟨fp, t, jsToLower t⟩ : NoteTagRow)], r.tag_name_lower = x := by
        intro x
        simp only [List.mem_cons, List.mem_append, List.mem_singleton]
        constructor
        · rintro (hx | hx)
          · exact ⟨⟨fp, t, jsToLower t⟩, Or.inr (Or.inl rfl), hx.symm⟩
          · rcases (hseen x).mp hx with ⟨r, hr, hrx⟩
            exact ⟨r, Or.inl hr, hrx⟩
        · rintro ⟨r, hr | rfl | hfalse, hrx⟩
          · exact Or.inr ((hseen x).mpr ⟨r, hr, hrx⟩)
          · exact Or.inl hrx.symm
          · exact absurd hfalse (List.not_mem_nil r)
      have hpath2 : ∀ r ∈ kept ++ [(⟨fp, t, jsToLower t⟩ : NoteTagRow)], r.note_path = fp := by
        intro r hr
        rcases List.mem_append.mp hr with hr | hr
        · exact hpath r hr
        · rw [List.mem_singleton.mp hr]
      have hrec := ih (kept ++ [(⟨fp, t, jsToLower t⟩ : NoteTagRow)])
        (jsToLower t :: seen) hseen2 hpath2
      rw [hrec, List.map_cons, List.append_assoc, List.singleton_append]

/-- C10: the output of `cleanTextForSearch` consists only of kept characters
(letters, digits, whitespace, dashes) and in particular contains no
single-quote character, so interpolating it into the `content_lower`
position of `getUpdateNoteSql` without `escapeSQLString` cannot terminate
the surrounding SQL string literal: escaping it would change nothing. -/
theorem C10_clean_text_cannot_break_literal (stop : List String) (text : String) :
    (∀ c ∈ (cleanTextForSearch stop text).data, isSearchKeptChar c = true)
      ∧ sqlQuote ∉ (cleanTextForSearch stop text).data
      ∧ escapeSQLString (cleanTextForSearch stop text) = cleanTextForSearch stop text :=
  ⟨cleanTextForSearch_kept stop text, cleanTextForSearch_no_quote stop text,
    escapeSQLString_eq_self (cleanTextForSearch_no_quote stop text)⟩


theorem tagRowsOf_append (xs ys : List FileInfo) :
    tagRowsOf (xs ++ ys) = tagRowsOf xs ++ tagRowsOf ys :=
  List.flatMap_append xs ys _

theorem tagRowsOf_cons (g : FileInfo) (fs : List FileInfo) :
    tagRowsOf (g :: fs) = g.tags.map (tagRowOf g.path) ++ tagRowsOf fs := rfl

/-- C1 (corrected): when the batch's paths are pairwise distinct, executing
the script of `getUpdateTagsSql` leaves, for each record of the batch,
exactly the case-folded-deduplicated form of its tag set (leading `#`
stripped, keyed on `tag_name_lower`) as the `note_tag` rows of its path,
whatever rows existed for that path before; the distinct-paths hypothesis is
necessary (see the counterexample), so the claim as stated — for every
batch — does not hold. -/
theorem C1_update_tags_relation_replace (db : DB) (files : List FileInfo) (f : FileInfo)
    (hmem : f ∈ files) (hnodup : (files.map (fun g => g.path)).Nodup) :
    ((applyUpdateTags db files).note_tag.filter (fun r => r.note_path == f.path))
      = expectedTagRows f := by
  show ((tagRowsOf files).foldl
      (fun cur r => if cur.any (tagPKClash r) then cur else cur ++ [r])
      ((sqlDeleteTagsWhereIn db (files.map (fun g => g.path))).note_tag)).filter
        (fun r => r.note_path == f.path) = expectedTagRows f
  rw [filter_insertFold f.path]
  have hbase : ((sqlDeleteTagsWhereIn db (files.map (fun g => g.path))).note_tag).filter
      (fun r => r.note_path == f.path) = [] := by
    rw [List.filter_eq_nil_iff]
    intro r hr
    rcases List.mem_filter.mp hr with ⟨-, hkeep⟩
    rw [Bool.not_eq_true', decide_eq_false_iff_not] at hkeep
    simp only [beq_iff_eq]
    intro hpath
    exact hkeep (hpath ▸ List.mem_map.mpr ⟨f, hmem, rfl⟩)
  obtain ⟨l1, l2, hsplit⟩ := List.append_of_mem hmem
  subst hsplit
  rw [List.map_append, List.map_cons] at hnodup
  rcases List.nodup_append.mp hnodup with ⟨-, h2, hdisj⟩
  have hnotl1 : f.path ∉ l1.map (fun g => g.path) :=
    fun hin => hdisj hin (List.mem_cons_self _ _)
  have hnotl2 : f.path ∉ l2.map (fun g => g.path) := (List.nodup_cons.mp h2).1
  rw [hbase, tagRowsOf_append, tagRowsOf_cons, List.filter_append, List.filter_append,
    tagRowsOf_filter_not_mem f.path l1 hnotl1, tagRowsOf_filter_not_mem f.path l2 hnotl2,
    filter_self_part f, List.nil_append, List.append_nil]
  have hmaps : f.tags.map (tagRowOf f.path)
      = (f.tags.map stripHash).map (fun t => (⟨f.path, t, jsToLower t⟩ : NoteTagRow)) := by
    rw [List.map_map]
    rfl
  rw [hmaps, insert_rows_dedup f.path (f.tags.map stripHash) [] [] (by simp)
    (fun r hr => absurd hr (List.not_mem_nil r)), List.nil_append]
  rfl

set_option maxRecDepth 10000 in
/-- C1 counterexample: a batch holding the same path twice (first with tag
set `{x}`, then with tag set `{y}`) leaves the path with the rows of both
revisions, not the deduplicated form of the tag set `{x}` passed for it. -/
theorem C1_counterexample :
    ((applyUpdateTags ⟨[], [], []⟩
        [⟨"p", "", "", ["x"], [], 0, 0⟩, ⟨"p", "", "", ["y"], [], 0, 0⟩]).note_tag.filter
          (fun r => r.note_path == "p"))
      ≠ expectedTagRows ⟨"p", "", "", ["x"], [], 0, 0⟩ := by decide

set_option maxRecDepth 10000 in
/-- C1 witness: a concrete distinct-paths batch over a store already holding
stale rows for the updated path. -/
theorem C1_witness :
    ((⟨"p", "T", "c", ["#A", "a", "B"], [], 0, 0⟩ : FileInfo)
        ∈ [(⟨"p", "T", "c", ["#A", "a", "B"], [], 0, 0⟩ : FileInfo)])
    ∧ (([(⟨"p", "T", "c", ["#A", "a", "B"], [], 0, 0⟩ : FileInfo)].map
        (fun g => g.path)).Nodup)
    ∧ ((applyUpdateTags ⟨[], [⟨"p", "Old", "old"⟩, ⟨"q", "Z", "z"⟩], []⟩
        [⟨"p", "T", "c", ["#A", "a", "B"], [], 0, 0⟩]).note_tag.filter
          (fun r => r.note_path == "p"))
      = expectedTagRows ⟨"p", "T", "c", ["#A", "a", "B"], [], 0, 0⟩ :=
  ⟨by decide, by decide,
    C1_update_tags_relation_replace ⟨[], [⟨"p", "Old", "old"⟩, ⟨"q", "Z", "z"⟩], []⟩
      [⟨"p", "T", "c", ["#A", "a", "B"], [], 0, 0⟩]
      ⟨"p", "T", "c", ["#A", "a", "B"], [], 0, 0⟩ (by decide) (by decide)⟩

/-- C5 (code bug): the script of `getDeleteNoteSql` is well-formed — a
single statement whose only literal is the (escaped) path, with no
statement against a relation table — and it removes exactly the `note`
rows of that path; but the `ON DELETE CASCADE` rule the claim relies on
never fires, because the adapter never enables foreign-key enforcement on
its spawned connections, so every `note_tag` and `note_frontmatter` row
survives the delete — diverging from the spec-predicted cascade on any
store holding a relation row for the path. -/
theorem C5_delete_without_cascade (db : DB) (p : String) :
    sqlLiterals (getDeleteNoteSql p) = some [p]
    ∧ (applyDeleteNote db p).note = db.note.filter (fun r => !(r.path == p))
    ∧ (applyDeleteNote db p).note_tag = db.note_tag
    ∧ (applyDeleteNote db p).note_frontmatter = db.note_frontmatter
    ∧ applyDeleteNote
          ⟨[⟨"a", "t", "tl", "cl", 0, 0, none⟩], [⟨"a", "X", "x"⟩], [⟨"a", "k", "v", "v"⟩]⟩ "a"
        ≠ applyDeleteNoteSpecCascade
          ⟨[⟨"a", "t", "tl", "cl", 0, 0, none⟩], [⟨"a", "X", "x"⟩], [⟨"a", "k", "v", "v"⟩]⟩ "a" :=
  ⟨sqlLiterals_deleteNote p, rfl, rfl, rfl, by decide⟩
theorem upgradeFold_missing_not_ok :
    ∀ (l : List Int) (st : Store) (v : Int), v ∈ l → migrate v = none →
      ∀ t, l.foldlM
          (fun st w =>
            match migrate w with
            | none => Except.error ("Missing migration script for version " ++ jsNumToString w)
            | some _ => Except.ok (runMigration w st)) st ≠ Except.ok t := by
  intro l
  induction l with
  | nil => intro st v hv _ t; exact absurd hv (List.not_mem_nil v)
  | cons a as ih =>
    intro st v hv hnone t hc
    rw [List.foldlM_cons] at hc
    cases hma : migrate a with
    | none =>
      rw [hma] at hc
      exact Except.noConfusion hc
    | some sc =>
      rw [hma] at hc
      rcases List.mem_cons.mp hv with rfl | hv2
      · rw [hma] at hnone; exact Option.noConfusion hnone
      · exact ih (runMigration a st) v hv2 hnone t hc

theorem upgradeDatabase_missing_not_ok (fromVersion : Int) (s : Store) (v : Int)
    (hv : v ∈ upgradeVersions fromVersion) (hnone : migrate v = none) :
    ∀ t, upgradeDatabase fromVersion s ≠ Except.ok t := by
  intro t hc
  unfold upgradeDatabase at hc
  cases hfold : (upgradeVersions fromVersion).foldlM
      (fun st w =>
        match migrate w with
        | none => Except.error ("Missing migration script for version " ++ jsNumToString w)
        | some _ => Except.ok (runMigration w st)) s with
  | error e => rw [hfold] at hc; exact Except.noConfusion hc
  | ok st => exact upgradeFold_missing_not_ok (upgradeVersions fromVersion) s v hv hnone st hfold

/-- C3 (code bug): the upgrade loop never silently skips a version — a
registry gap inside the walked range makes the upgrade fail rather than
succeed — but the registry itself violates the contiguity requirement:
`migrate` has no entry for version 19, which the loop walks when upgrading
from the supported version 18 (`MIN_MIGRATION_VERSION`), so that upgrade
fails with `Missing migration script for version 19` instead of reaching
`CURRENT_VERSION = 20`. -/
theorem C3_migration_registry_gap (s : Store) :
    (∀ v : Int, v ∈ upgradeVersions (readVersion s) → migrate v = none →
        ∀ t, upgradeDatabase (readVersion s) s ≠ Except.ok t)
    ∧ migrate 19 = none
    ∧ MIN_MIGRATION_VERSION ≤ 18 ∧ (18 : Int) < CURRENT_VERSION
    ∧ (19 : Int) ∈ upgradeVersions 18
    ∧ upgradeDatabase 18 s = Except.error "Missing migration script for version 19" :=
  ⟨fun v hv hnone => upgradeDatabase_missing_not_ok (readVersion s) s v hv hnone,
    rfl, by decide, by decide, by decide, rfl⟩

/-- C3 witness: against a store sitting at the supported schema version 18,
the upgrade does not succeed (with any result), because version 19 is
walked and has no registry entry. -/
theorem C3_witness :
    ((19 : Int) ∈ upgradeVersions (readVersion ⟨true, true, true, some 18, [], 0, 0⟩)
        ∧ migrate 19 = none)
    ∧ upgradeDatabase (readVersion ⟨true, true, true, some 18, [], 0, 0⟩)
          ⟨true, true, true, some 18, [], 0, 0⟩
        ≠ Except.ok ⟨true, true, true, some CURRENT_VERSION, [19, 20], 0, 0⟩ :=
  ⟨⟨by decide, by decide⟩,
    (C3_migration_registry_gap ⟨true, true, true, some 18, [], 0, 0⟩).1 19 (by decide)
      (by decide) ⟨true, true, true, some CURRENT_VERSION, [19, 20], 0, 0⟩⟩

/-- C4 (code bug): of the claim's four branches, `created` holds on a fresh
store (version table absent, tables not yet present) and leaves the store
at `CURRENT_VERSION`, and `current` holds at `CURRENT_VERSION` without
touching the store; the claimed `upgraded` branch holds from version 19
(migration 20 applied, version left at `CURRENT_VERSION`) but fails from
the equally supported version 18 with `Missing migration script for
version 19`; and the claimed destructive reset below
`MIN_MIGRATION_VERSION` never happens: the `fs.access` guard of
`createNewDatabase` always yields `undefined`, so the unlink is dead code
and no file is ever deleted (`unlinks` is preserved whenever the call
succeeds), and against a store whose pre-existing `version` table has the
old shape without `id` the re-create fails — the plain `CREATE TABLE`
collides when the tables exist, otherwise `updateVersion`'s insert targets
the missing `id` column — so `initializeDatabase` rejects instead of
returning `reset`. -/
theorem C4_initialize_database_branches (s : Store) :
    (s.hasVersionTable = false → s.hasNoteTables = false →
        initializeDatabase s
          = Except.ok (InitStatus.created,
              { s with
                hasVersionTable := true
                versionTableHasId := true
                hasNoteTables := true
                version := some CURRENT_VERSION
                schemaCreates := s.schemaCreates + 1 }))
    ∧ (∀ t, createNewDatabase s = Except.ok t → t.unlinks = s.unlinks)
    ∧ (s.hasVersionTable = true → readVersion s < MIN_MIGRATION_VERSION →
        s.versionTableHasId = false →
        initializeDatabase s
          = Except.error (if s.hasNoteTables then "table note already exists"
              else "table version has no column named id"))
    ∧ (s.hasVersionTable = true → readVersion s = 19 → s.versionTableHasId = true →
        initializeDatabase s
          = Except.ok (InitStatus.upgraded,
              { s with
                hasVersionTable := true
                versionTableHasId := true
                version := some CURRENT_VERSION
                migrationsRun := s.migrationsRun ++ [20] }))
    ∧ (s.hasVersionTable = true → readVersion s = CURRENT_VERSION →
        initializeDatabase s = Except.ok (InitStatus.current, s))
    ∧ (s.hasVersionTable = true → readVersion s = 18 →
        initializeDatabase s = Except.error "Missing migration script for version 19") := by
  obtain ⟨hv, hid, hnt, ver, mig, sc, ul⟩ := s
  refine ⟨?_, ?_, ?_, ?_, ?_, ?_⟩
  · intro h1 h2
    cases hv with
    | true => exact Bool.noConfusion h1
    | false =>
      cases hnt with
      | true => exact Bool.noConfusion h2
      | false => rfl
  · cases hv <;> cases hid <;> cases hnt <;> intro t hc <;>
      first
        | exact Except.noConfusion hc
        | (injection hc with h; subst h; rfl)
  · intro h1 h2 hid0
    cases hv with
    | false => exact Bool.noConfusion h1
    | true =>
      cases hid with
      | true => exact Bool.noConfusion hid0
      | false =>
        unfold initializeDatabase
        rw [if_neg (fun hcontra => Bool.noConfusion hcontra), if_pos h2]
        cases hnt with
        | true => rfl
        | false => rfl
  · intro h1 h2 hid1
    cases hv with
    | false => exact Bool.noConfusion h1
    | true =>
      cases hid with
      | false => exact Bool.noConfusion hid1
      | true =>
        unfold initializeDatabase
        rw [if_neg (fun hcontra => Bool.noConfusion hcontra), h2, if_neg (by decide),
          if_pos (by decide)]
        rfl
  · intro h1 h2
    cases hv with
    | false => exact Bool.noConfusion h1
    | true =>
      unfold initializeDatabase
      rw [if_neg (fun hcontra => Bool.noConfusion hcontra), h2, if_neg (by decide),
        if_neg (by decide)]
  · intro h1 h2
    cases hv with
    | false => exact Bool.noConfusion h1
    | true =>
      unfold initializeDatabase
      rw [if_neg (fun hcontra => Bool.noConfusion hcontra), h2, if_neg (by decide),
        if_pos (by decide)]
      rfl

/-- C4 witness: a fresh store is created at `CURRENT_VERSION`; the reset
branch at stored version 10 with the old `version` table shape and existing
tables rejects with the create collision; the upgrade branch at the
supported stored version 18 — which the claim promises returns `upgraded`
— rejects with the missing migration script. -/
theorem C4_witness :
    initializeDatabase ⟨false, false, false, none, [], 0, 0⟩
        = Except.ok (InitStatus.created, ⟨true, true, true, some CURRENT_VERSION, [], 1, 0⟩)
    ∧ initializeDatabase ⟨true, false, true, some 10, [], 0, 0⟩
        = Except.error "table note already exists"
    ∧ initializeDatabase ⟨true, true, true, some 18, [], 0, 0⟩
        = Except.error "Missing migration script for version 19" :=
  ⟨(C4_initialize_database_branches ⟨false, false, false, none, [], 0, 0⟩).1 rfl rfl,
    (C4_initialize_database_branches ⟨true, false, true, some 10, [], 0, 0⟩).2.2.1
      rfl (by decide) rfl,
    (C4_initialize_database_branches ⟨true, true, true, some 18, [], 0, 0⟩).2.2.2.2.2 rfl rfl⟩

/-- C6: every generated script is well-formed — the literal scanner closes
every string literal — and the texts its literals denote are exactly the
caller-supplied field values (paths, titles and lower-cased titles, cleaned
content, stripped tag names with their lower-cased forms, frontmatter names
and serialized values with their lower-cased forms): the quote-doubling of
`escapeSQLString` keeps every such field inside its literal. -/
theorem C6_builders_escape_every_field (stop : List String) (files : List FileInfo)
    (p : String) (now : Int) :
    sqlLiterals (getUpdateNoteSql stop files) = some (noteLiteralsOf stop files)
    ∧ sqlLiterals (getUpdateTagsSql files) = some (tagLiteralsOf files)
    ∧ sqlLiterals (getUpdateFrontmatterSql files) = some (fmLiteralsOf files)
    ∧ sqlLiterals (getDeleteNoteSql p) = some [p]
    ∧ sqlLiterals (getUpdateLastOpenedSql now p) = some [p] :=
  ⟨sqlLiterals_updateNote stop files, sqlLiterals_updateTags files,
    sqlLiterals_updateFrontmatter files, sqlLiterals_deleteNote p,
    sqlLiterals_lastOpened now p⟩

/-- C7 (corrected): for a non-empty batch, the literals of the single
insert-or-replace script of `getUpdateNoteSql` are, per record: the path,
the title, the lower-cased title in the `title_lower` position — and in the
`content_lower` position `cleanTextForSearch` applied to the record's
`content`, i.e. the builder re-applies the text-cleaning collaborator
itself rather than taking the content as already normalized (see the
counterexample against the spec's verbatim-content reading). -/
theorem C7_update_note_renormalizes_content (stop : List String) (f : FileInfo)
    (fs : List FileInfo) :
    sqlLiterals (getUpdateNoteSql stop (f :: fs))
      = some ([f.path, f.title, jsToLower f.title, cleanTextForSearch stop f.content]
          ++ noteLiteralsOf stop fs) := by
  rw [sqlLiterals_updateNote stop (f :: fs), noteLiteralsOf_cons]

set_option maxRecDepth 10000 in
/-- C7 counterexample: on a record whose content holds a single quote, the
script of `getUpdateNoteSql` differs from the script the spec sentence
predicts (content interpolated verbatim as the already-normalized
`content_lower`): the builder re-cleans the content. -/
theorem C7_counterexample :
    getUpdateNoteSql [] [⟨"a.md", "T", "a" ++ sq ++ "b", [], [], 1, 2⟩]
      ≠ getUpdateNoteSqlSpecVerbatim [⟨"a.md", "T", "a" ++ sq ++ "b", [], [], 1, 2⟩] := by
  decide

/-- C8: the close handler of the command executor rejects with a process
error — carrying the captured error-stream text — exactly when the exit
code is nonzero or the error stream names an invalid store (`not a
database`); otherwise text mode resolves with the trimmed output, and
structured (json) mode resolves with the parsed value or rejects with a
distinct parse failure on malformed output. -/
theorem C8_close_handler_characterization (optionsJson : Bool)
    (jsonParse : String → Except String String) (code : Int) (output errorOutput : String) :
    ((∃ msg, executeOnClose optionsJson jsonParse code output errorOutput
          = ExecResult.rejectedProcess msg)
        ↔ (code ≠ 0 ∨ notADatabase errorOutput = true))
    ∧ (∀ msg, executeOnClose optionsJson jsonParse code output errorOutput
          = ExecResult.rejectedProcess msg → msg = "SQLite error: " ++ errorOutput)
    ∧ (code = 0 → notADatabase errorOutput = false → optionsJson = false →
        executeOnClose optionsJson jsonParse code output errorOutput
          = ExecResult.resolvedText output.trim)
    ∧ (code = 0 → notADatabase errorOutput = false → optionsJson = true →
        (∀ v, jsonParse output = Except.ok v →
            executeOnClose optionsJson jsonParse code output errorOutput
              = ExecResult.resolvedStructured v)
          ∧ (∀ m, jsonParse output = Except.error m →
              executeOnClose optionsJson jsonParse code output errorOutput
                = ExecResult.rejectedParse ("Failed to parse JSON: " ++ m))) := by
  have hbool : ((code != 0 || notADatabase errorOutput) = true)
      ↔ (code ≠ 0 ∨ notADatabase errorOutput = true) := by
    rw [Bool.or_eq_true, bne_iff_ne]
  by_cases hcond : code ≠ 0 ∨ notADatabase errorOutput = true
  · have hif : executeOnClose optionsJson jsonParse code output errorOutput
        = ExecResult.rejectedProcess ("SQLite error: " ++ errorOutput) := by
      unfold executeOnClose
      rw [if_pos (hbool.mpr hcond)]
    refine ⟨⟨fun _ => hcond, fun _ => ⟨_, hif⟩⟩, ?_, ?_, ?_⟩
    · intro msg h
      rw [hif] at h
      exact (ExecResult.rejectedProcess.inj h).symm
    · intro h0 hnd _
      exfalso
      rcases hcond with hne | hnd2
      · exact hne h0
      · rw [hnd] at hnd2
        exact Bool.false_ne_true hnd2
    · intro h0 hnd _
      exfalso
      rcases hcond with hne | hnd2
      · exact hne h0
      · rw [hnd] at hnd2
        exact Bool.false_ne_true hnd2
  · have hc : (code != 0 || notADatabase errorOutput) = false :=
      Bool.eq_false_iff.mpr (fun hcontra => hcond (hbool.mp hcontra))
    have hif : executeOnClose optionsJson jsonParse code output errorOutput
        = (if optionsJson then
            match jsonParse output with
            | Except.ok v => ExecResult.resolvedStructured v
            | Except.error msg => ExecResult.rejectedParse ("Failed to parse JSON: " ++ msg)
          else ExecResult.resolvedText output.trim) := by
      unfold executeOnClose
      rw [hc, if_neg Bool.false_ne_true]
    have himp : ∀ msg, executeOnClose optionsJson jsonParse code output errorOutput
        = ExecResult.rejectedProcess msg → False := by
      intro msg h
      rw [hif] at h
      cases hoj : optionsJson with
      | false =>
        rw [if_neg (by rw [hoj]; exact Bool.false_ne_true)] at h
        exact ExecResult.noConfusion h
      | true =>
        rw [if_pos (by rw [hoj])] at h
        cases hp : jsonParse output with
        | ok v =>
          rw [hp] at h
          exact ExecResult.noConfusion h
        | error m =>
          rw [hp] at h
          exact ExecResult.noConfusion h
    refine ⟨⟨?_, fun h => absurd h hcond⟩, ?_, ?_, ?_⟩
    · rintro ⟨msg, h⟩
      exact absurd (himp msg h) not_false
    · intro msg h
      exact absurd (himp msg h) not_false
    · intro h0 hnd hoj
      rw [hif, hoj, if_neg Bool.false_ne_true]
    · intro h0 hnd hoj
      constructor
      · intro v hv
        rw [hif, if_pos hoj, hv]
      · intro m hm
        rw [hif, if_pos hoj, hm]

/-- C8 witness: a clean exit (`code = 0`, empty error stream) in structured
mode with well-formed output resolves with the parsed value. -/
theorem C8_witness :
    ((0 : Int) = 0 ∧ notADatabase "" = false)
    ∧ executeOnClose true (fun s => Except.ok s) 0 "[]" ""
        = ExecResult.resolvedStructured "[]" :=
  ⟨⟨rfl, by decide⟩,
    ((C8_close_handler_characterization true (fun s => Except.ok s) 0 "[]" "").2.2.2
      rfl (by decide) rfl).1 "[]" rfl⟩

theorem tagTuples_eq_nil_of_all_empty :
    ∀ files : List FileInfo, (∀ f ∈ files, f.tags = []) → tagTuples files = [] := by
  intro files
  induction files with
  | nil => intro _; rfl
  | cons g fs ih =>
    intro h
    show (g.tags.map (fun tag => tagTuple g.path tag)) ++ tagTuples fs = []
    rw [h g (List.mem_cons_self g fs), List.map_nil, List.nil_append]
    exact ih (fun f hf => h f (List.mem_cons_of_mem g hf))

theorem fmTuples_eq_nil_of_all_empty :
    ∀ files : List FileInfo, (∀ f ∈ files, f.frontmatter = []) → fmTuples files = [] := by
  intro files
  induction files with
  | nil => intro _; rfl
  | cons g fs ih =>
    intro h
    show (g.frontmatter.map (fun entry => fmTuple g.path entry)) ++ fmTuples fs = []
    rw [h g (List.mem_cons_self g fs), List.map_nil, List.nil_append]
    exact ih (fun f hf => h f (List.mem_cons_of_mem g hf))

/-- C9: when every record of the batch carries an empty tag list
(respectively an empty frontmatter map), the relation-replace builder emits
the path-restricted DELETE followed by whitespace only — the INSERT clause
is absent; when the batch contributes at least one relation row, the
output carries the DELETE followed by exactly one INSERT OR IGNORE
statement whose value list covers every relation row of the batch. -/
theorem C9_insert_clause_presence (files : List FileInfo) :
    ((∀ f ∈ files, f.tags = []) →
        getUpdateTagsSql files
          = "\n    DELETE FROM note_tag \n    WHERE note_path IN (" ++ allPathsSql files
              ++ "); \n\n    " ++ "\n  ")
    ∧ (tagRowsOf files ≠ [] →
        getUpdateTagsSql files
          = "\n    DELETE FROM note_tag \n    WHERE note_path IN (" ++ allPathsSql files
              ++ "); \n\n    "
              ++ ("\n          INSERT OR IGNORE INTO note_tag \n          (note_path, tag_name, tag_name_lower) \n          VALUES \n          "
                  ++ joinWith ",\n" ((tagRowsOf files).map renderTagRow) ++ " ;\n        ")
              ++ "\n  ")
    ∧ ((∀ f ∈ files, f.frontmatter = []) →
        getUpdateFrontmatterSql files
          = "\n    DELETE FROM note_frontmatter\n    WHERE note_path IN (" ++ allPathsSql files
              ++ "); \n\n    " ++ "\n  ")
    ∧ (fmRowsOf files ≠ [] →
        getUpdateFrontmatterSql files
          = "\n    DELETE FROM note_frontmatter\n    WHERE note_path IN (" ++ allPathsSql files
              ++ "); \n\n    "
              ++ ("\n        INSERT OR IGNORE INTO note_frontmatter \n        (note_path, frontmatter_name, frontmatter_value, frontmatter_value_lower)\n        VALUES\n        "
                  ++ joinWith ",\n" ((fmRowsOf files).map renderFmRow) ++ ";\n    ")
              ++ "\n  ") := by
  refine ⟨?_, ?_, ?_, ?_⟩
  · intro hall
    unfold getUpdateTagsSql
    rw [tagTuples_eq_nil_of_all_empty files hall, tagsInsertSql_nil, String.append_empty]
  · intro hrows
    have hlen : (tagTuples files).length > 0 := by
      rw [tagTuples_eq_render]
      exact List.length_pos.mpr (fun hc => hrows (List.map_eq_nil_iff.mp hc))
    unfold getUpdateTagsSql tagsInsertSql
    rw [if_pos hlen, tagTuples_eq_render]
  · intro hall
    unfold getUpdateFrontmatterSql
    rw [fmTuples_eq_nil_of_all_empty files hall, fmInsertSql_nil, String.append_empty]
  · intro hrows
    have hlen : (fmTuples files).length > 0 := by
      rw [fmTuples_eq_render]
      exact List.length_pos.mpr (fun hc => hrows (List.map_eq_nil_iff.mp hc))
    unfold getUpdateFrontmatterSql fmInsertSql
    rw [if_pos hlen, fmTuples_eq_render]

set_option maxRecDepth 4000 in
/-- C9 witness: a one-record batch with no tags and no frontmatter gets
delete-only scripts from both relation-replace builders. -/
theorem C9_witness :
    getUpdateTagsSql [⟨"a", "", "", [], [], 0, 0⟩]
        = "\n    DELETE FROM note_tag \n    WHERE note_path IN ("
            ++ allPathsSql [⟨"a", "", "", [], [], 0, 0⟩] ++ "); \n\n    " ++ "\n  "
    ∧ getUpdateFrontmatterSql [⟨"a", "", "", [], [], 0, 0⟩]
        = "\n    DELETE FROM note_frontmatter\n    WHERE note_path IN ("
            ++ allPathsSql [⟨"a", "", "", [], [], 0, 0⟩] ++ "); \n\n    " ++ "\n  " :=
  ⟨(C9_insert_clause_presence [⟨"a", "", "", [], [], 0, 0⟩]).1 (by decide),
    (C9_insert_clause_presence [⟨"a", "", "", [], [], 0, 0⟩]).2.2.1 (by decide)⟩

theorem queueInv_reachable {s : QueueState} (h : QueueReachable s) : QueueInv s := by
  induction h with
  | start => exact ⟨[], rfl, rfl, List.nodup_nil⟩
  | @step s1 t1 hr hstep ih =>
    rcases ih with ⟨done, htrace, henq, hnodup⟩
    cases hstep with
    | enqueue op hfresh =>
      refine ⟨done, htrace, ?_, ?_⟩
      · show s1.enqueued ++ [op]
          = done.map Prod.fst ++ runList s1.running ++ (s1.pending ++ [op])
        rw [henq, List.append_assoc]
      · show (s1.enqueued ++ [op]).Nodup
        exact List.nodup_append.mpr ⟨hnodup, List.nodup_singleton op,
          fun a ha hb => hfresh (List.mem_singleton.mp hb ▸ ha)⟩
    | begin_next op rest hidle hqueue =>
      refine ⟨done, ?_, ?_, hnodup⟩
      · show s1.trace ++ [QEvent.begins op] = TraceOf done (some op)
        rw [htrace, hidle]
        unfold TraceOf runList
        rw [List.map_nil, List.append_nil]
        rfl
      · show s1.enqueued = done.map Prod.fst ++ runList (some op) ++ rest
        rw [henq, hqueue, hidle]
        unfold runList
        rw [List.append_nil, List.append_assoc]
        rfl
    | settle op ok hrun =>
      refine ⟨done ++ [(op, ok)], ?_, ?_, hnodup⟩
      · show s1.trace ++ [QEvent.settles op ok] = TraceOf (done ++ [(op, ok)]) none
        rw [htrace, hrun]
        unfold TraceOf runList
        rw [List.flatMap_append, List.map_nil, List.append_nil, List.append_assoc]
        rfl
      · show s1.enqueued = (done ++ [(op, ok)]).map Prod.fst ++ runList none ++ s1.pending
        rw [henq, hrun, List.map_append]
        unfold runList
        rw [List.append_nil]
        rfl

theorem split_unique {α : Type} (j : α) :
    ∀ (A C B D : List α), A ++ j :: B = C ++ j :: D → j ∉ A → j ∉ C →
      A = C ∧ B = D := by
  intro A
  induction A with
  | nil =>
    intro C B D heq hjA hjC
    cases C with
    | nil =>
      rw [List.nil_append, List.nil_append] at heq
      injection heq with h1 h2
      exact ⟨rfl, h2⟩
    | cons c cs =>
      rw [List.nil_append, List.cons_append] at heq
      injection heq with h1 h2
      subst h1
      exact absurd (List.mem_cons_self j cs) hjC
  | cons a as ih =>
    intro C B D heq hjA hjC
    cases C with
    | nil =>
      rw [List.nil_append, List.cons_append] at heq
      injection heq with h1 h2
      subst h1
      exact absurd (List.mem_cons_self a as) hjA
    | cons c cs =>
      rw [List.cons_append, List.cons_append] at heq
      injection heq with h1 h2
      subst h1
      have hrec := ih cs B D h2 (fun hx => hjA (List.mem_cons_of_mem a hx))
        (fun hx => hjC (List.mem_cons_of_mem a hx))
      exact ⟨by rw [hrec.1], hrec.2⟩

/-- C2 (modelled from the spec, the WriteQueue source being absent): in
every reachable state of the FIFO queue with a single one-at-a-time
worker, if operation `i` was enqueued strictly before operation `j` and
`j` has begun executing, then `i` settled (resolved or rejected) strictly
before `j` began — whatever documents the two operations target. -/
theorem C2_queue_fifo (s : QueueState) (hreach : QueueReachable s) (i j : Nat)
    (henq : EnqueuedBefore s.enqueued i j) (hbeg : QEvent.begins j ∈ s.trace) :
    SettledBeforeBegin s.trace i j := by
  rcases queueInv_reachable hreach with ⟨done, htrace, henqeq, hnodup⟩
  rcases henq with ⟨l1, l2, l3, hsplit⟩
  have hsplit2 : s.enqueued = (l1 ++ i :: l2) ++ j :: l3 := hsplit
  have hjA : j ∉ l1 ++ i :: l2 := by
    have hnd1 := hnodup
    rw [hsplit2] at hnd1
    rcases List.nodup_append.mp hnd1 with ⟨-, -, hdisj⟩
    exact fun hx => hdisj hx (List.mem_cons_self j l3)
  rw [htrace] at hbeg
  unfold TraceOf at hbeg
  rcases List.mem_append.mp hbeg with hdone | hrunpart
  · rcases List.mem_flatMap.mp hdone with ⟨pr, hpr, hin⟩
    have hj : pr.1 = j := by
      rcases List.mem_cons.mp hin with h1 | h1
      · injection h1.symm
      · rcases List.mem_cons.mp h1 with h2 | h2
        · exact absurd h2.symm (fun hcontra => QEvent.noConfusion hcontra)
        · exact absurd h2 (List.not_mem_nil _)
    obtain ⟨d1, d2, hdone_split⟩ := List.append_of_mem hpr
    have hC : s.enqueued = d1.map Prod.fst
        ++ j :: (d2.map Prod.fst ++ (runList s.running ++ s.pending)) := by
      rw [henqeq, hdone_split, List.map_append, List.map_cons, hj]
      simp only [List.append_assoc, List.cons_append]
    have hjC : j ∉ d1.map Prod.fst := by
      have hnd2 := hnodup
      rw [hC] at hnd2
      rcases List.nodup_append.mp hnd2 with ⟨-, -, hdisj⟩
      exact fun hx => hdisj hx (List.mem_cons_self j _)
    obtain ⟨hAC, -⟩ := split_unique j (l1 ++ i :: l2) (d1.map Prod.fst) l3
      (d2.map Prod.fst ++ (runList s.running ++ s.pending))
      (hsplit2.symm.trans hC) hjA hjC
    have hiA : i ∈ d1.map Prod.fst := by
      rw [← hAC]
      exact List.mem_append.mpr (Or.inr (List.mem_cons_self i l2))
    rcases List.mem_map.mp hiA with ⟨pri, hpri, hpri1⟩
    refine ⟨d1.flatMap (fun pr => [QEvent.begins pr.1, QEvent.settles pr.1 pr.2]),
      QEvent.settles j pr.2
        :: (d2.flatMap (fun pr => [QEvent.begins pr.1, QEvent.settles pr.1 pr.2])
          ++ (runList s.running).map QEvent.begins), ?_, ⟨pri.2, ?_⟩⟩
    · rw [htrace, hdone_split]
      unfold TraceOf
      simp only [List.flatMap_append, List.flatMap_cons, hj]
      simp only [List.append_assoc, List.cons_append, List.nil_append]
    · refine List.mem_flatMap.mpr ⟨pri, hpri, ?_⟩
      rw [hpri1]
      exact List.mem_cons_of_mem _ (List.mem_cons_self _ _)
  · have hr3 : s.running = some j := by
      cases hr2 : s.running with
      | none =>
        rw [hr2] at hrunpart
        exact absurd hrunpart (List.not_mem_nil _)
      | some r =>
        rw [hr2] at hrunpart
        rcases List.mem_cons.mp hrunpart with h1 | h1
        · injection h1 with h2
          rw [h2]
        · exact absurd h1 (List.not_mem_nil _)
    have hC : s.enqueued = done.map Prod.fst ++ j :: s.pending := by
      rw [henqeq, hr3, List.append_assoc]
      rfl
    have hjC : j ∉ done.map Prod.fst := by
      have hnd2 := hnodup
      rw [hC] at hnd2
      rcases List.nodup_append.mp hnd2 with ⟨-, -, hdisj⟩
      exact fun hx => hdisj hx (List.mem_cons_self j _)
    obtain ⟨hAC, -⟩ := split_unique j (l1 ++ i :: l2) (done.map Prod.fst) l3 s.pending
      (hsplit2.symm.trans hC) hjA hjC
    have hiA : i ∈ done.map Prod.fst := by
      rw [← hAC]
      exact List.mem_append.mpr (Or.inr (List.mem_cons_self i l2))
    rcases List.mem_map.mp hiA with ⟨pri, hpri, hpri1⟩
    refine ⟨done.flatMap (fun pr => [QEvent.begins pr.1, QEvent.settles pr.1 pr.2]),
      [], ?_, ⟨pri.2, ?_⟩⟩
    · rw [htrace, hr3]
      unfold TraceOf runList
      rfl
    · refine List.mem_flatMap.mpr ⟨pri, hpri, ?_⟩
      rw [hpri1]
      exact List.mem_cons_of_mem _ (List.mem_cons_self _ _)

/-- C2 witness: the reachable five-step history enqueue 0, enqueue 1,
begin 0, settle 0, begin 1 — operation 0, enqueued first, settles before
operation 1 begins. -/
theorem C2_witness :
    SettledBeforeBegin [QEvent.begins 0, QEvent.settles 0 true, QEvent.begins 1] 0 1 := by
  have h1 : QueueReachable ⟨[0], [0], none, []⟩ := by
    have hstep := QueueReachable.step QueueReachable.start
      (QueueStep.enqueue QueueState.start 0 (List.not_mem_nil 0))
    exact hstep
  have h2 : QueueReachable ⟨[0, 1], [0, 1], none, []⟩ := by
    have hstep := QueueReachable.step h1 (QueueStep.enqueue ⟨[0], [0], none, []⟩ 1 (by decide))
    exact hstep
  have h3 : QueueReachable ⟨[0, 1], [1], some 0, [QEvent.begins 0]⟩ := by
    have hstep := QueueReachable.step h2
      (QueueStep.begin_next ⟨[0, 1], [0, 1], none, []⟩ 0 [1] rfl rfl)
    exact hstep
  have h4 : QueueReachable ⟨[0, 1], [1], none, [QEvent.begins 0, QEvent.settles 0 true]⟩ := by
    have hstep := QueueReachable.step h3
      (QueueStep.settle ⟨[0, 1], [1], some 0, [QEvent.begins 0]⟩ 0 true rfl)
    exact hstep
  have h5 : QueueReachable ⟨[0, 1], [], some 1,
      [QEvent.begins 0, QEvent.settles 0 true, QEvent.begins 1]⟩ := by
    have hstep := QueueReachable.step h4
      (QueueStep.begin_next ⟨[0, 1], [1], none, [QEvent.begins 0, QEvent.settles 0 true]⟩
        1 [] rfl rfl)
    exact hstep
  exact C2_queue_fifo
    ⟨[0, 1], [], some 1, [QEvent.begins 0, QEvent.settles 0 true, QEvent.begins 1]⟩
    h5 0 1 ⟨[], [], [], rfl⟩ (by decide)

end SqliteSync
